import Mathlib

/-!
Verification of the bundle lifecycle engine of the cortes-admin repository
(src/lib/services/cut-orders.ts, src/constants/locations.ts).

The persistence collaborator (Supabase) is modelled as an explicit record of
tables (`DB`).  Every remote call the service makes is a step that may fail;
a list of booleans (`fl`, consumed one entry per call, missing entries mean
success) plays the role of the collaborator's failure behaviour, so that both
the happy path (`fl = []`) and partial failures are expressible.  Strings are
Lean strings; `trim`/`toUpperCase` are re-implemented over the character list
so that concrete witnesses evaluate inside the kernel.  Timestamps are
natural numbers standing for the epoch milliseconds of the source's date
strings; `DB.now` stands for the wall clock read by `new Date()`.
-/

namespace CortesAdmin

/-- ASCII uppercase of one character, the effect of JS `toUpperCase` on the
inputs this service compares (location codes). -/
def charToUpper (c : Char) : Char :=
  if 'a' ≤ c ∧ c ≤ 'z' then Char.ofNat (c.toNat - 32) else c

/-- JS `String.prototype.toUpperCase`, embedded over the character list. -/
def strToUpper (s : String) : String := ⟨s.data.map charToUpper⟩

/-- JS `String.prototype.trim`, embedded over the character list. -/
def strTrim (s : String) : String :=
  ⟨((s.data.dropWhile Char.isWhitespace).reverse.dropWhile Char.isWhitespace).reverse⟩

/-- `BundleStatusEnum` of cut-orders.ts: "disponible" | "asignado" | "usado". -/
inductive BundleStatus
  | disponible
  | asignado
  | usado
deriving DecidableEq, Repr

/-- `BundleActionEnum` of cut-orders.ts: "mover" | "asignar" | "utilizar" | "dividir". -/
inductive BundleAction
  | mover
  | asignar
  | utilizar
  | dividir
deriving DecidableEq, Repr

/-- `bundleStatusByAction` of cut-orders.ts. -/
def bundleStatusByAction : BundleAction → Option BundleStatus
  | .asignar => some .asignado
  | .utilizar => some .usado
  | _ => none

/-- `BUNDLE_SPLIT_NUMBER_FACTOR` of cut-orders.ts. -/
def BUNDLE_SPLIT_NUMBER_FACTOR : Int := 1000

/-- `BundleNumberInfo` of cut-orders.ts. -/
structure BundleNumberInfo where
  base : Option Int
  variant : Option Int
deriving DecidableEq, Repr

/-- `decodeBundleNumber` of cut-orders.ts.  A `null` stored number maps to
`none`; the NaN guard of the source has no counterpart on exact integers.
The `>= 1000` branch only ever sees positive values, where Lean's integer
division and remainder agree with JS `Math.floor(v / 1000)` and `v % 1000`;
the JS `|| 1` falsy fallback is the `r = 0` test. -/
def decodeBundleNumber : Option Int → BundleNumberInfo
  | none => ⟨none, none⟩
  | some v =>
    if BUNDLE_SPLIT_NUMBER_FACTOR ≤ v then
      let base := v / BUNDLE_SPLIT_NUMBER_FACTOR
      let r := v % BUNDLE_SPLIT_NUMBER_FACTOR
      ⟨some base, some (if r = 0 then 1 else r)⟩
    else
      ⟨some v, some 1⟩

/-- `encodeBundleNumber` of cut-orders.ts. -/
def encodeBundleNumber (base variant : Int) : Int :=
  base * BUNDLE_SPLIT_NUMBER_FACTOR + variant

/-- `LOCATION_CODES` of src/constants/locations.ts. -/
def LOCATION_CODES : List String :=
  ["C1", "C2", "C3", "C4", "C5", "C6", "C7", "C8", "C9", "C10"]

/-- `isValidLocationCode` of src/constants/locations.ts. -/
def isValidLocationCode (value : String) : Bool :=
  LOCATION_CODES.contains value

/-- `normalizeLocationCode` of cut-orders.ts.  A missing (`undefined`) or
empty input is falsy in the source and yields `null`. -/
def normalizeLocationCode (value : Option String) : Option String :=
  match value with
  | none => none
  | some v =>
    if v = "" then none
    else
      let normalized := strToUpper (strTrim v)
      if normalized = "" then none
      else if isValidLocationCode normalized then some normalized
      else none

/-- A row of the `bultos` table, as selected by the service. -/
structure BundleRow where
  id : Nat
  orden_corte_id : Nat
  numero_bulto : Option Int
  cantidad_laminas : Option Int
  estado : Option BundleStatus
  ubicacion_id : Option Nat
  sscc : String
  luid : String
deriving DecidableEq, Repr

/-- A row of the `historial_bultos` table, as inserted by the service. -/
structure HistoryRow where
  bulto_id : Nat
  accion : BundleAction
  ubicacion_destino_id : Option Nat
  numero_trabajo : Option String
  fecha_hora : Nat
deriving DecidableEq, Repr

/-- A row of the `ordenes_corte` table (the fields the engine touches). -/
structure OrderRow where
  id : Nat
  activo : Bool
deriving DecidableEq, Repr

/-- A row of the `ubicaciones` table. -/
structure LocationRow where
  id : Nat
  codigo : String
deriving DecidableEq, Repr

/-- The persistent store: the four tables, a fresh-id source for inserts and
the current clock used to timestamp history entries. -/
structure DB where
  orders : List OrderRow
  bundles : List BundleRow
  history : List HistoryRow
  locations : List LocationRow
  nextId : Nat
  now : Nat
deriving DecidableEq, Repr

/-- Pop the next collaborator-call outcome from the failure list; an
exhausted list means every remaining call succeeds. -/
def pop : List Bool → Bool × List Bool
  | [] => (true, [])
  | b :: r => (b, r)

/-- First-occurrence deduplication, the effect of `Array.from(new Set(xs))`
in the source. -/
def firstDedup {α : Type} [DecidableEq α] (l : List α) : List α :=
  l.foldl (fun acc a => if a ∈ acc then acc else acc ++ [a]) []

/-- `BundleIdentifiersInput` of cut-orders.ts. -/
structure BundleIdentifiersInput where
  sscc : String
  luid : String
deriving DecidableEq, Repr

/-- The argument record of `splitBundle` in cut-orders.ts. -/
structure SplitInput where
  bundleId : Nat
  orderId : Nat
  sheets : Int
  originalIdentifiers : BundleIdentifiersInput
  newBundleIdentifiers : BundleIdentifiersInput
deriving DecidableEq, Repr

/-- The distinct `throw new Error(...)` sites of `splitBundle`. -/
inductive SplitErr
  | nonPositiveSheets
  | missingIdentifiers
  | fetchBundleFailed
  | bundleNotFound
  | wrongOrder
  | sheetsTooLarge
  | noBaseNumber
  | fetchSiblingsFailed
  | updateOriginalFailed
  | updateNumberFailed
  | insertFailed
  | insertHistoryFailed
deriving DecidableEq, Repr

/-- Everything `splitBundle` has computed by the end of its read-only
prefix (cut-orders.ts lines 451-519), before the first write. -/
structure SplitPlan where
  fl : List Bool
  bundle : BundleRow
  baseNumber : Int
  nextVariant : Int
  shouldNormalize : Bool
  remainingSheets : Int
deriving DecidableEq, Repr

/-- The sibling-group scan of `splitBundle` (cut-orders.ts 496-515): all
bundles of the order whose decoded base matches, their decoded variants, and
`Math.max(...usedVariants)` with the `1` default on an empty list. -/
def highestVariantOf (s : DB) (orderId : Nat) (bb : Int) : Int :=
  let orderBundles := s.bundles.filter (fun r => r.orden_corte_id = orderId)
  let relatedBundles := orderBundles.filter
    (fun r => (decodeBundleNumber r.numero_bulto).base = some bb)
  let usedVariants := relatedBundles.filterMap
    (fun r => (decodeBundleNumber r.numero_bulto).variant)
  match usedVariants with
  | [] => (1 : Int)
  | v :: vs => vs.foldl max v

/-- `shouldNormalizeNumber` of `splitBundle`:
`bundle.numero_bulto === null || bundle.numero_bulto < 1000`. -/
def shouldNormalizeOf : Option Int → Bool
  | none => true
  | some v => decide (v < BUNDLE_SPLIT_NUMBER_FACTOR)

/-- The read-and-validate prefix of `splitBundle` (cut-orders.ts 451-519):
quantity check, identifier checks, fetch of the source bundle (`.single()`
succeeds on exactly one row), order-membership check, sheets bound, base
number resolution (JS `!bundleBaseNumber` is true on both `null` and `0`),
sibling-group scan and next-variant computation.  No mutation happens here. -/
def splitPhase1 (fl : List Bool) (s : DB) (inp : SplitInput) :
    Except SplitErr SplitPlan :=
  if inp.sheets ≤ 0 then .error .nonPositiveSheets
  else
    if strTrim inp.originalIdentifiers.sscc = "" ∨
        strTrim inp.originalIdentifiers.luid = "" ∨
        strTrim inp.newBundleIdentifiers.sscc = "" ∨
        strTrim inp.newBundleIdentifiers.luid = "" then
      .error .missingIdentifiers
    else
      let (ok1, fl) := pop fl
      if !ok1 then .error .fetchBundleFailed
      else
        match s.bundles.filter (fun r => r.id = inp.bundleId) with
        | [bundle] =>
          if bundle.orden_corte_id ≠ inp.orderId then .error .wrongOrder
          else
            if bundle.cantidad_laminas.getD 0 ≤ inp.sheets then .error .sheetsTooLarge
            else
              match (decodeBundleNumber bundle.numero_bulto).base with
              | none => .error .noBaseNumber
              | some bb =>
                if bb = 0 then .error .noBaseNumber
                else
                  let (ok2, fl) := pop fl
                  if !ok2 then .error .fetchSiblingsFailed
                  else
                    .ok ⟨fl, bundle, bb, highestVariantOf s inp.orderId bb + 1,
                      shouldNormalizeOf bundle.numero_bulto,
                      bundle.cantidad_laminas.getD 0 - inp.sheets⟩
        | _ => .error .bundleNotFound

/-- The write suffix of `splitBundle` (cut-orders.ts 520-599): update the
original bundle's sheets and identifiers, rewrite its number when it was
still un-encoded, insert the new sibling, append the two history entries.
Each write is a separate collaborator call; a failure throws and leaves the
earlier writes in place, exactly as the source does. -/
def splitPhase2 (plan : SplitPlan) (s : DB) (inp : SplitInput) :
    DB × Option SplitErr :=
  let (ok3, fl) := pop plan.fl
  if !ok3 then (s, some .updateOriginalFailed)
  else
    let s1 : DB :=
      { s with
        bundles := s.bundles.map (fun r =>
          if r.id = inp.bundleId then
            { r with
              cantidad_laminas := some plan.remainingSheets
              sscc := strTrim inp.originalIdentifiers.sscc
              luid := strTrim inp.originalIdentifiers.luid }
          else r) }
    let (ok4, fl) :=
      if plan.shouldNormalize then pop fl else (true, fl)
    if !ok4 then (s1, some .updateNumberFailed)
    else
      let s2 : DB :=
        if plan.shouldNormalize then
          { s1 with
            bundles := s1.bundles.map (fun r =>
              if r.id = inp.bundleId then
                { r with numero_bulto := some (encodeBundleNumber plan.baseNumber 1) }
              else r) }
        else s1
      let (ok5, fl) := pop fl
      if !ok5 then (s2, some .insertFailed)
      else
        let newRow : BundleRow :=
          { id := s2.nextId
            orden_corte_id := inp.orderId
            numero_bulto := some (encodeBundleNumber plan.baseNumber plan.nextVariant)
            cantidad_laminas := some inp.sheets
            estado := some (plan.bundle.estado.getD .disponible)
            ubicacion_id := plan.bundle.ubicacion_id
            sscc := strTrim inp.newBundleIdentifiers.sscc
            luid := strTrim inp.newBundleIdentifiers.luid }
        let s3 : DB := { s2 with bundles := s2.bundles ++ [newRow], nextId := s2.nextId + 1 }
        let (ok6, _) := pop fl
        if !ok6 then (s3, some .insertHistoryFailed)
        else
          let splitTimestamp := s3.now
          let historyPayload : List HistoryRow :=
            [ { bulto_id := plan.bundle.id
                accion := .dividir
                ubicacion_destino_id := plan.bundle.ubicacion_id
                numero_trabajo := none
                fecha_hora := splitTimestamp },
              { bulto_id := newRow.id
                accion := .dividir
                ubicacion_destino_id := plan.bundle.ubicacion_id
                numero_trabajo := none
                fecha_hora := splitTimestamp } ]
          ({ s3 with history := s3.history ++ historyPayload, now := s3.now + 1 }, none)

/-- `splitBundle` of cut-orders.ts: the validating read prefix followed by
the sequence of writes.  A validation error leaves the store untouched; a
collaborator failure during the writes keeps whatever was already written. -/
def splitBundle (fl : List Bool) (s : DB) (inp : SplitInput) : DB × Option SplitErr :=
  match splitPhase1 fl s inp with
  | .error e => (s, some e)
  | .ok plan => splitPhase2 plan s inp

/-- One order's worth of `checkAndUpdateOrderStatus`'s loop body: decide
whether every bundle of the order is used.  Reads only `s.bundles`. -/
def shouldDeactivate (s : DB) (oid : Nat) : Bool :=
  let orderBundles := s.bundles.filter (fun b => b.orden_corte_id = oid)
  !orderBundles.isEmpty &&
    orderBundles.all (fun b => b.estado = some .usado) &&
    !(orderBundles.any (fun b =>
      b.estado = some .disponible || b.estado = some .asignado))

/-- `update({ activo: false })` on one order row. -/
def setOrderInactive (s : DB) (oid : Nat) : DB :=
  { s with
    orders := s.orders.map (fun o => if o.id = oid then { o with activo := false } else o) }

/-- The `for (const orderId of uniqueOrderIds)` loop of
`checkAndUpdateOrderStatus`: per order, a fetch of its bundles (a failure
skips the order), the all-used test, and the best-effort deactivation
update (a failure is logged and the loop continues). -/
def checkOrderLoop : DB → List Bool → List Nat → DB × List Bool
  | s, fl, [] => (s, fl)
  | s, fl, oid :: rest =>
    let (ok, fl) := pop fl
    if !ok then checkOrderLoop s fl rest
    else if shouldDeactivate s oid then
      let (ok2, fl) := pop fl
      if !ok2 then checkOrderLoop s fl rest
      else checkOrderLoop (setOrderInactive s oid) fl rest
    else checkOrderLoop s fl rest

/-- The orders owning the affected bundles, first occurrence first, the
`uniqueOrderIds` of the source. -/
def touchedOrders (s : DB) (bundleIds : List Nat) : List Nat :=
  firstDedup ((s.bundles.filter (fun b => bundleIds.contains b.id)).map
    (fun b => b.orden_corte_id))

/-- `checkAndUpdateOrderStatus` of cut-orders.ts: fetch the owning orders of
the affected bundles (a failure returns silently), then run the per-order
loop.  Never throws. -/
def checkAndUpdateOrderStatus (fl : List Bool) (s : DB) (bundleIds : List Nat) :
    DB × List Bool :=
  let (ok, fl) := pop fl
  if !ok then (s, fl)
  else checkOrderLoop s fl (touchedOrders s bundleIds)

/-- `ensureLocationMap` of cut-orders.ts: read the existing rows for the
requested codes, insert the missing ones, and return the code-to-id map.
`none` in the third component is a thrown collaborator error. -/
def ensureLocationMap (fl : List Bool) (s : DB) (codes : List String) :
    DB × List Bool × Option (List (String × Nat)) :=
  if codes.isEmpty then (s, fl, some [])
  else
    let uniqueCodes := firstDedup codes
    let (ok1, fl) := pop fl
    if !ok1 then (s, fl, none)
    else
      let lookup := fun (c : String) =>
        (s.locations.find? (fun l => l.codigo = c)).map (fun l => l.id)
      let existing := uniqueCodes.filterMap (fun c => (lookup c).map (fun i => (c, i)))
      let missing := uniqueCodes.filter (fun c => (lookup c).isNone)
      if missing.isEmpty then (s, fl, some existing)
      else
        let (ok2, fl) := pop fl
        if !ok2 then (s, fl, none)
        else
          let newRows := missing.enum.map
            (fun p => LocationRow.mk (s.nextId + p.1) p.2)
          let s' : DB :=
            { s with
              locations := s.locations ++ newRows
              nextId := s.nextId + missing.length }
          (s', fl, some (existing ++ missing.enum.map (fun p => (p.2, s.nextId + p.1))))

/-- `ApplyBundleActionInput` of cut-orders.ts. -/
structure ApplyInput where
  bundleIds : List Nat
  action : BundleAction
  destinationCode : Option String
  orderNumber : Option String
deriving DecidableEq, Repr

/-- The distinct `throw new Error(...)` sites of `applyBundleAction`. -/
inductive ActionErr
  | emptySelection
  | validateFetchFailed
  | notAssigned
  | invalidDestination
  | locationEnsureFailed
  | locationUnresolved
  | invalidOrder
  | updateFailed
  | historyFailed
deriving DecidableEq, Repr

/-- The "utilizar" pre-validation of `applyBundleAction` (cut-orders.ts
673-691): fetch the targeted rows and require every one of them to be
`asignado`.  Rows that do not exist are simply absent from the fetch.
Reads only; returns the remaining failure list. -/
def applyValidateUse (fl : List Bool) (s : DB) (inp : ApplyInput) :
    List Bool × Option ActionErr :=
  if inp.action = .utilizar then
    let (ok, fl) := pop fl
    if !ok then (fl, some .validateFetchFailed)
    else
      let bundlesInfo := s.bundles.filter (fun b => inp.bundleIds.contains b.id)
      let invalid := bundlesInfo.filter (fun b => b.estado ≠ some .asignado)
      if invalid.isEmpty then (fl, none) else (fl, some .notAssigned)
  else (fl, none)

/-- The "mover" destination resolution of `applyBundleAction` (cut-orders.ts
693-704): normalize the destination code, get-or-create the location row,
and look up its id. -/
def applyResolveLocation (fl : List Bool) (s : DB) (inp : ApplyInput) :
    DB × List Bool × Option Nat × Option ActionErr :=
  if inp.action = .mover then
    match normalizeLocationCode inp.destinationCode with
    | none => (s, fl, none, some .invalidDestination)
    | some nd =>
      match ensureLocationMap fl s [nd] with
      | (s', fl, none) => (s', fl, none, some .locationEnsureFailed)
      | (s', fl, some locationMap) =>
        match (locationMap.find? (fun p => p.1 = nd)).map (fun p => p.2) with
        | none => (s', fl, none, some .locationUnresolved)
        | some lid => (s', fl, some lid, none)
  else (s, fl, none, none)

/-- The combined row update of `applyBundleAction` (cut-orders.ts 712-730):
set the destination location and/or the next status on every targeted row. -/
def applyUpdatePhase (s : DB) (inp : ApplyInput) (locationId : Option Nat) : DB :=
  { s with
    bundles := s.bundles.map (fun b =>
      if inp.bundleIds.contains b.id then
        { b with
          ubicacion_id :=
            match locationId with
            | some l => some l
            | none => b.ubicacion_id
          estado :=
            match bundleStatusByAction inp.action with
            | some st => some st
            | none => b.estado }
      else b) }

/-- The history append and best-effort order recomputation of
`applyBundleAction` (cut-orders.ts 732-750): one entry per requested id,
`numero_trabajo` only for "asignar". -/
def applyHistoryPhase (fl : List Bool) (s : DB) (inp : ApplyInput)
    (locationId : Option Nat) (historyWorkOrder : Option String) :
    DB × Option ActionErr :=
  let (ok2, fl) := pop fl
  if !ok2 then (s, some .historyFailed)
  else
    let historyPayload := inp.bundleIds.map (fun bid =>
      HistoryRow.mk bid inp.action locationId
        (if inp.action = .asignar then historyWorkOrder else none) s.now)
    let s2 : DB := { s with history := s.history ++ historyPayload, now := s.now + 1 }
    ((checkAndUpdateOrderStatus fl s2 inp.bundleIds).1, none)

/-- The tail of `applyBundleAction` (cut-orders.ts 712-750): the combined
row update when there is anything to set, then the history append and the
order-status recomputation. -/
def applyFinish (fl : List Bool) (s : DB) (inp : ApplyInput)
    (locationId : Option Nat) (historyWorkOrder : Option String) :
    DB × Option ActionErr :=
  if locationId.isSome || (bundleStatusByAction inp.action).isSome then
    let (ok, fl) := pop fl
    if !ok then (s, some .updateFailed)
    else
      applyHistoryPhase fl (applyUpdatePhase s inp locationId) inp locationId
        historyWorkOrder
  else
    applyHistoryPhase fl s inp locationId historyWorkOrder

/-- `applyBundleAction` of cut-orders.ts: empty-selection guard, "utilizar"
whole-batch validation, "mover" destination resolution, "asignar" work-order
guard (`orderNumber?.trim() ?? ""`, empty is invalid), then the update,
history append and order recomputation. -/
def applyBundleAction (fl : List Bool) (s : DB) (inp : ApplyInput) :
    DB × Option ActionErr :=
  if inp.bundleIds.isEmpty then (s, some .emptySelection)
  else
    match applyValidateUse fl s inp with
    | (_, some e) => (s, some e)
    | (fl, none) =>
      match applyResolveLocation fl s inp with
      | (s', _, _, some e) => (s', some e)
      | (s', fl, locationId, none) =>
        let normalizedOrder := strTrim (inp.orderNumber.getD "")
        let historyWorkOrder :=
          if normalizedOrder = "" then none else some normalizedOrder
        if inp.action = .asignar ∧ historyWorkOrder = none then
          (s', some .invalidOrder)
        else
          applyFinish fl s' inp locationId historyWorkOrder

/-- `SupabaseBundleHistory` of cut-orders.ts: a raw history row as selected,
with the joined location's code and the parsed timestamp of `fecha_hora`
(`null` stays `none`). -/
structure RawHistory where
  accion : Option BundleAction
  numero_trabajo : Option String
  fecha_hora : Option Nat
  ubicacion_codigo : Option String
deriving DecidableEq, Repr

/-- `SupabaseBundle` of cut-orders.ts, with joined location code and raw
history rows; `creado_en` is the parsed creation timestamp. -/
structure RawBundle where
  id : Nat
  numero_bulto : Option Int
  cantidad_laminas : Option Int
  estado : Option BundleStatus
  ubicacion_codigo : Option String
  historial : Option (List RawHistory)
  creado_en : Option Nat
  sscc : Option String
  luid : Option String
deriving DecidableEq, Repr

/-- The sort key of `normalizeHistory`'s comparator:
`a.fecha_hora ? new Date(a.fecha_hora).getTime() : 0`. -/
def histKey (e : RawHistory) : Nat := e.fecha_hora.getD 0

/-- `normalizeHistory`'s in-place `.sort` by timestamp: a stable sort by
`histKey` (JS `Array.prototype.sort` is stable). -/
def sortHistoryByTime (l : List RawHistory) : List RawHistory :=
  List.insertionSort (fun a b => histKey a ≤ histKey b) l

/-- `bundleActionLabels` of cut-orders.ts, with the `"Actualización"`
fallback for a null action. -/
def actionLabel : Option BundleAction → String
  | some .mover => "Mover"
  | some .asignar => "Asignar"
  | some .utilizar => "Utilizar"
  | some .dividir => "Dividir"
  | none => "Actualización"

/-- The displayed entry type (`BundleHistoryEntry`); the timestamp is kept
unformatted (the source renders it through a locale date formatter). -/
structure HistEntry where
  action : String
  location : String
  date : Nat
deriving DecidableEq, Repr

/-- The `.map` body of `normalizeHistory`. -/
def normalizeHistoryEntry (e : RawHistory) : HistEntry :=
  { action := actionLabel e.accion
    location :=
      if e.accion = some .asignar then e.numero_trabajo.getD "-"
      else e.ubicacion_codigo.getD "-"
    date := histKey e }

/-- `normalizeHistory` of cut-orders.ts: sort by timestamp, then project. -/
def normalizeHistory (history : Option (List RawHistory)) : List HistEntry :=
  (sortHistoryByTime (history.getD [])).map normalizeHistoryEntry

/-- The predicate of `mapBundle`'s backward scan:
`entry.numero_trabajo && entry.numero_trabajo.trim().length > 0`. -/
def qualifiesWorkOrder (e : RawHistory) : Bool :=
  match e.numero_trabajo with
  | some s => decide (s ≠ "") && decide (strTrim s ≠ "")
  | none => false

/-- `mapBundle`'s `lastWorkOrderEntry`: the scan runs over the array after
`normalizeHistory` sorted it in place, so it sees the timestamp-sorted rows,
latest first. -/
def lastWorkOrderEntry (sorted : List RawHistory) : Option RawHistory :=
  sorted.reverse.find? qualifiesWorkOrder

/-- The sentinel the source uses where the specification says "none". -/
def workOrderSentinel : String := "Sin orden"

/-- `mapBundle`'s `latestWorkOrder` computation. -/
def latestWorkOrder (estado : Option BundleStatus) (sorted : List RawHistory) : String :=
  if estado = some .disponible then workOrderSentinel
  else
    match lastWorkOrderEntry sorted with
    | some e => e.numero_trabajo.getD workOrderSentinel
    | none => workOrderSentinel

/-- The projected `Bundle` of cut-orders.ts (the fields the engine derives);
`createdAt` keeps the raw optional timestamp. -/
structure ProjBundle where
  id : Nat
  name : String
  baseName : String
  rawNumber : Option Int
  createdAt : Option Nat
  currentLocation : String
  sheets : Int
  workOrder : String
  availability : String
  status : String
  sscc : String
  luid : String
  history : List HistEntry
deriving DecidableEq, Repr

/-- `bundleStatusLabels[...].badge` with the `"Sin estado"` fallback. -/
def statusBadge : Option BundleStatus → String
  | some .disponible => "Disponible"
  | some .asignado => "Asignado"
  | some .usado => "Utilizado"
  | none => "Sin estado"

/-- `mapBundle` of cut-orders.ts.  The in-place `.sort` inside
`normalizeHistory` leaves `rawHistory` sorted, so the backward work-order
scan operates on the timestamp-sorted rows; `baseName` uses JS truthiness
(`baseNumber` of `null` or `0` falls back to "Bulto sin número"); the two
status labels coincide for every status, so one projection serves both. -/
def mapBundle (b : RawBundle) : ProjBundle :=
  let numberInfo := decodeBundleNumber b.numero_bulto
  let baseNumber := numberInfo.base
  let sorted := sortHistoryByTime (b.historial.getD [])
  let baseName :=
    match baseNumber with
    | some x => if x = 0 then "Bulto sin número" else "Bulto #" ++ toString x
    | none => "Bulto sin número"
  { id := b.id
    name := baseName
    baseName := baseName
    rawNumber := baseNumber
    createdAt := b.creado_en
    currentLocation := b.ubicacion_codigo.getD "Sin ubicación"
    sheets := b.cantidad_laminas.getD 0
    workOrder := latestWorkOrder b.estado sorted
    availability := statusBadge b.estado
    status := statusBadge b.estado
    sscc := b.sscc.getD ""
    luid := b.luid.getD ""
    history := sorted.map normalizeHistoryEntry }

/-- The grouping key of `applyBundleDisplayNames`:
`bundle.rawNumber !== null ? String(bundle.rawNumber) : bundle.id` (a stored
number on the left, the row id on the right; the two string spaces are
disjoint in the source's data). -/
def groupKey (b : ProjBundle) : Sum Int Nat :=
  match b.rawNumber with
  | some r => Sum.inl r
  | none => Sum.inr b.id

/-- The display-name sort key: `a.createdAt ? new Date(a.createdAt).getTime() : 0`. -/
def displaySortKey (b : ProjBundle) : Nat := b.createdAt.getD 0

/-- The sibling group of a projected bundle: every bundle of the list whose
grouping key matches (the `groups` map entry the source builds). -/
def groupOf (bundles : List ProjBundle) (b : ProjBundle) : List ProjBundle :=
  bundles.filter (fun c => groupKey c = groupKey b)

/-- One member's outcome of `applyBundleDisplayNames`: a member of a group
of two or more gets its base name suffixed with its 1-based position in the
group stably sorted by creation time (positions are found by the member's
first index, which matches the source's in-place mutation whenever the
projected bundles are pairwise distinct, e.g. when their ids are). -/
def displayRename (bundles : List ProjBundle) (b : ProjBundle) : ProjBundle :=
  if (groupOf bundles b).length ≤ 1 then b
  else
    let sortedGroup := List.insertionSort
      (fun a c => displaySortKey a ≤ displaySortKey c) (groupOf bundles b)
    { b with name := b.baseName ++ " - " ++ toString (sortedGroup.indexOf b + 1) }

/-- `applyBundleDisplayNames` of cut-orders.ts, as the per-member map. -/
def applyBundleDisplayNames (bundles : List ProjBundle) : List ProjBundle :=
  bundles.map (displayRename bundles)

/-! ## Codec facts -/

/-- An encoded number with a positive base and an in-range variant decodes
back to the same pair. -/
lemma decode_encode (b v : Int) (hb : 1 ≤ b) (hv1 : 1 ≤ v) (hv2 : v ≤ 999) :
    decodeBundleNumber (some (encodeBundleNumber b v)) = ⟨some b, some v⟩ := by
  show decodeBundleNumber (some (b * 1000 + v)) = ⟨some b, some v⟩
  have h1 : BUNDLE_SPLIT_NUMBER_FACTOR ≤ b * 1000 + v := by
    unfold BUNDLE_SPLIT_NUMBER_FACTOR; omega
  have h2 : (b * 1000 + v) / BUNDLE_SPLIT_NUMBER_FACTOR = b := by
    unfold BUNDLE_SPLIT_NUMBER_FACTOR; omega
  have h3 : (b * 1000 + v) % BUNDLE_SPLIT_NUMBER_FACTOR = v := by
    unfold BUNDLE_SPLIT_NUMBER_FACTOR; omega
  have h4 : ¬(v = 0) := by omega
  simp [decodeBundleNumber, h1, h2, h3, h4]

/-- A decoded variant, when present, is at least 1. -/
lemma decode_variant_pos (n : Option Int) (v : Int)
    (h : (decodeBundleNumber n).variant = some v) : 1 ≤ v := by
  match n with
  | none => simp [decodeBundleNumber] at h
  | some x =>
    simp only [decodeBundleNumber] at h
    by_cases hx : BUNDLE_SPLIT_NUMBER_FACTOR ≤ x
    · rw [if_pos hx] at h
      unfold BUNDLE_SPLIT_NUMBER_FACTOR at hx h
      simp only [Option.some.injEq] at h
      by_cases hr : x % 1000 = 0
      · simp [hr] at h; omega
      · simp [hr] at h; omega
    · rw [if_neg hx] at h
      simp only [Option.some.injEq] at h
      omega

/-- C7: for every base in [1, 998] and every variant in [1, 998],
`decodeBundleNumber (encodeBundleNumber base variant)` returns exactly
`(base, variant)`. -/
theorem codec_round_trip (base variant : Int)
    (hb1 : 1 ≤ base) (hb2 : base ≤ 998) (hv1 : 1 ≤ variant) (hv2 : variant ≤ 998) :
    decodeBundleNumber (some (encodeBundleNumber base variant))
      = ⟨some base, some variant⟩ :=
  decode_encode base variant hb1 hv1 (by omega)

/-- Witness for C7 at base 7, variant 2. -/
theorem codec_round_trip_witness :
    (1 : Int) ≤ 7 ∧ (7 : Int) ≤ 998 ∧ (1 : Int) ≤ 2 ∧ (2 : Int) ≤ 998 ∧
    decodeBundleNumber (some (encodeBundleNumber 7 2)) = ⟨some 7, some 2⟩ :=
  ⟨by norm_num, by norm_num, by norm_num, by norm_num,
    codec_round_trip 7 2 (by norm_num) (by norm_num) (by norm_num) (by norm_num)⟩

/-! ## Concrete stores used by the executable checks -/

/-- One active order owning a single 100-sheet bundle numbered 7. -/
def splitDemoDB : DB :=
  { orders := [⟨1, true⟩]
    bundles := [⟨10, 1, some 7, some 100, some .disponible, some 3, "A", "B"⟩]
    history := []
    locations := [⟨3, "C1"⟩]
    nextId := 11
    now := 0 }

/-- Split 40 of the 100 sheets of bundle 10. -/
def splitDemoInput : SplitInput := ⟨10, 1, 40, ⟨"S1", "L1"⟩, ⟨"S2", "L2"⟩⟩

/-- C1: the split is NOT atomic.  When the collaborator call that inserts
the new bundle fails (fifth call; the first four — fetch, sibling fetch,
sheet update, number rewrite — succeed), `splitBundle` throws but leaves the
original bundle's sheet count already reduced from 100 to 60 with no sibling
bundle in the store, the exact partial state the specification rules out;
the same input with a reliable collaborator succeeds, so the partial state
is genuinely reachable mid-failure. -/
theorem split_partial_state_reachable :
    (splitBundle [true, true, true, true, false] splitDemoDB splitDemoInput).2
        = some .insertFailed ∧
    ((splitBundle [true, true, true, true, false] splitDemoDB splitDemoInput).1.bundles.map
        (fun r => (r.id, r.cantidad_laminas))) = [(10, some 60)] ∧
    (splitBundle [] splitDemoDB splitDemoInput).2 = none := by
  refine ⟨by decide, by decide, by decide⟩

/-- One active order owning a single 10-sheet bundle whose stored number
7999 decodes to base 7, variant 999. -/
def overflowDB : DB :=
  { orders := [⟨1, true⟩]
    bundles := [⟨10, 1, some 7999, some 10, some .asignado, some 3, "A", "B"⟩]
    history := []
    locations := []
    nextId := 11
    now := 0 }

/-- Split 4 of the 10 sheets of the variant-999 bundle. -/
def overflowInput : SplitInput := ⟨10, 1, 4, ⟨"S1", "L1"⟩, ⟨"S2", "L2"⟩⟩

/-- Counterexample to C4 as stated: a successful split (0 < 4 < 10) of a
bundle whose sibling group already holds variant 999 allocates variant 1000,
and the new bundle's stored number 8000 decodes to base 8 while the original
still decodes to base 7 — the two siblings do not share `baseNumber`. -/
theorem split_base_not_shared_at_variant_999 :
    (splitBundle [] overflowDB overflowInput).2 = none ∧
    (0 : Int) < 4 ∧ (4 : Int) < 10 ∧
    ((splitBundle [] overflowDB overflowInput).1.bundles.map
        (fun r => (decodeBundleNumber r.numero_bulto).base)) = [some 7, some 8] := by
  refine ⟨by decide, by decide, by decide, by decide⟩

/-! ## Inversion and shape lemmas for the split operation -/

/-- Everything a successful validation prefix of `splitBundle` guarantees:
the requested quantity is strictly between 0 and the source bundle's sheet
count, the fetch matched exactly one row belonging to the requested order,
the decoded base is present and non-zero, and the plan fields are the
next-variant, promotion flag and remaining-sheet values computed from the
fetched row. -/
lemma splitPhase1_ok_facts {fl : List Bool} {s : DB} {inp : SplitInput}
    {plan : SplitPlan} (h : splitPhase1 fl s inp = .ok plan) :
    0 < inp.sheets ∧
    s.bundles.filter (fun r => r.id = inp.bundleId) = [plan.bundle] ∧
    plan.bundle.orden_corte_id = inp.orderId ∧
    inp.sheets < plan.bundle.cantidad_laminas.getD 0 ∧
    (decodeBundleNumber plan.bundle.numero_bulto).base = some plan.baseNumber ∧
    plan.baseNumber ≠ 0 ∧
    plan.nextVariant = highestVariantOf s inp.orderId plan.baseNumber + 1 ∧
    plan.shouldNormalize = shouldNormalizeOf plan.bundle.numero_bulto ∧
    plan.remainingSheets = plan.bundle.cantidad_laminas.getD 0 - inp.sheets ∧
    plan.fl = (pop (pop fl).2).2 := by
  unfold splitPhase1 at h
  repeat' split at h
  all_goals try exact Except.noConfusion h
  simp only [Except.ok.injEq] at h
  subst h
  dsimp only
  refine ⟨by omega, by simp_all, by simp_all, by omega, by simp_all,
    by simp_all, rfl, rfl, rfl, by simp_all⟩

/-- C10: a stored bundle number 0 decodes to (base 0, variant 1), yet such a
bundle can never be split: the JS falsiness test `!bundleBaseNumber` treats
base 0 like a missing number, so `splitBundle` never succeeds on it, and
when every earlier precondition holds the operation fails with precisely the
"no number assigned" validation error, leaving the store untouched. -/
theorem bundle_number_zero_never_splits (s : DB) (inp : SplitInput) (b : BundleRow)
    (hfetch : s.bundles.filter (fun r => r.id = inp.bundleId) = [b])
    (hnum : b.numero_bulto = some 0) :
    decodeBundleNumber (some 0) = ⟨some 0, some 1⟩ ∧
    (∀ fl, (splitBundle fl s inp).2 ≠ none) ∧
    (0 < inp.sheets →
      strTrim inp.originalIdentifiers.sscc ≠ "" →
      strTrim inp.originalIdentifiers.luid ≠ "" →
      strTrim inp.newBundleIdentifiers.sscc ≠ "" →
      strTrim inp.newBundleIdentifiers.luid ≠ "" →
      b.orden_corte_id = inp.orderId →
      inp.sheets < b.cantidad_laminas.getD 0 →
      splitBundle [] s inp = (s, some .noBaseNumber)) := by
  have hdec : decodeBundleNumber (some 0) = ⟨some 0, some 1⟩ := by decide
  refine ⟨hdec, ?_, ?_⟩
  · intro fl hnone
    unfold splitBundle at hnone
    cases hp : splitPhase1 fl s inp with
    | error e => rw [hp] at hnone; simp at hnone
    | ok plan =>
      obtain ⟨-, hfetch2, -, -, hbase, hbb, -⟩ := splitPhase1_ok_facts hp
      rw [hfetch] at hfetch2
      have hb : b = plan.bundle := by simpa using hfetch2
      rw [← hb, hnum, hdec] at hbase
      simp only [Option.some.injEq] at hbase
      exact hbb hbase.symm
  · intro h0 h1 h2 h3 h4 horder hS
    have hns : ¬inp.sheets ≤ 0 := by omega
    have hSS : ¬(b.cantidad_laminas.getD 0 ≤ inp.sheets) := by omega
    unfold splitBundle splitPhase1
    rw [if_neg hns, if_neg (by simp [h1, h2, h3, h4])]
    simp only [pop]
    rw [hfetch]
    simp [horder, hSS, hnum, hdec]

/-- One active order owning a single 100-sheet bundle stored with number 0. -/
def zeroNumberDB : DB :=
  { orders := [⟨1, true⟩]
    bundles := [⟨10, 1, some 0, some 100, some .disponible, some 3, "A", "B"⟩]
    history := []
    locations := []
    nextId := 11
    now := 0 }

/-- The single row of `zeroNumberDB`. -/
def zeroNumberRow : BundleRow := ⟨10, 1, some 0, some 100, some .disponible, some 3, "A", "B"⟩

/-- Witness for C10: splitting the number-0 bundle with every other
precondition satisfied yields exactly the "no number assigned" error and
leaves the store unchanged. -/
theorem bundle_number_zero_never_splits_witness :
    zeroNumberDB.bundles.filter (fun r => r.id = splitDemoInput.bundleId) = [zeroNumberRow] ∧
    zeroNumberRow.numero_bulto = some 0 ∧
    splitBundle [] zeroNumberDB splitDemoInput = (zeroNumberDB, some .noBaseNumber) :=
  ⟨by decide, by decide,
    (bundle_number_zero_never_splits zeroNumberDB splitDemoInput zeroNumberRow (by decide)
      (by decide)).2.2 (by decide) (by decide) (by decide) (by decide) (by decide)
      (by decide) (by decide)⟩

/-! ## Batch actions: the "utilizar" and "mover" guards -/

/-- C2 (amended to non-empty batches): with a reliable collaborator, the
"utilizar" batch action succeeds if and only if every targeted bundle
present in the store is `asignado`; when it fails, the store is completely
unchanged — no bundle's status is modified and no history entry is appended.
(The empty batch is excluded: the source rejects it outright even though
"every targeted bundle is assigned" then holds vacuously.) -/
theorem use_batch_all_or_nothing (s : DB) (inp : ApplyInput)
    (ha : inp.action = .utilizar) (hne : inp.bundleIds ≠ []) :
    ((applyBundleAction [] s inp).2 = none ↔
      ∀ b ∈ s.bundles, b.id ∈ inp.bundleIds → b.estado = some .asignado) ∧
    ((applyBundleAction [] s inp).2 ≠ none → (applyBundleAction [] s inp).1 = s) := by
  have hempty : inp.bundleIds.isEmpty = false := by
    cases h : inp.bundleIds with
    | nil => exact absurd h hne
    | cons a l => rfl
  by_cases hall : ∀ b ∈ s.bundles, b.id ∈ inp.bundleIds → b.estado = some .asignado
  · have hcond : ∀ a ∈ s.bundles, ¬a.estado = some .asignado → a.id ∉ inp.bundleIds :=
      fun a haa hst hid => hst (hall a haa hid)
    have h2 : (applyBundleAction [] s inp).2 = none := by
      unfold applyBundleAction applyValidateUse applyResolveLocation applyFinish applyUpdatePhase applyHistoryPhase
      simp [hempty, ha, pop, bundleStatusByAction]
      rw [if_pos hcond]
      simp [pop]
    exact ⟨⟨fun _ => hall, fun _ => h2⟩, fun hcontra => absurd h2 hcontra⟩
  · have hcond : ¬∀ a ∈ s.bundles, ¬a.estado = some .asignado → a.id ∉ inp.bundleIds := by
      push_neg at hall ⊢
      obtain ⟨b, hb, hid, hst⟩ := hall
      exact ⟨b, hb, hst, hid⟩
    have heq : applyBundleAction [] s inp = (s, some .notAssigned) := by
      unfold applyBundleAction applyValidateUse
      simp [hempty, ha, pop]
      rw [if_neg hcond]
    rw [heq]
    refine ⟨?_, fun _ => rfl⟩
    simp only [ne_eq, reduceCtorEq, false_iff]
    push_neg at hall ⊢
    exact hall

/-- A store with one assigned bundle, used by the batch-action checks. -/
def oneAssignedDB : DB :=
  { orders := [⟨1, true⟩]
    bundles := [⟨10, 1, some 7, some 5, some .asignado, none, "A", "B"⟩]
    history := []
    locations := []
    nextId := 11
    now := 0 }

/-- Counterexample to C2 as stated: on the empty batch, every targeted
bundle is vacuously `asignado`, yet the action fails (the source throws
"Selecciona al menos un bulto."), so "succeeds iff all targeted bundles are
assigned" is false for the empty batch. -/
theorem use_empty_batch_fails_despite_vacuous_precondition :
    ¬(((applyBundleAction [] oneAssignedDB ⟨[], .utilizar, none, none⟩).2 = none) ↔
      (∀ b ∈ oneAssignedDB.bundles, b.id ∈ ([] : List Nat) →
        b.estado = some .asignado)) := by
  decide

/-- Witness for C2 on a mixed batch: bundle 10 is assigned, bundle 11 is
not, so the two-bundle batch fails and the store is unchanged. -/
def mixedBatchDB : DB :=
  { orders := [⟨1, true⟩]
    bundles := [⟨10, 1, some 7, some 5, some .asignado, none, "A", "B"⟩,
                ⟨11, 1, some 8, some 5, some .disponible, none, "C", "D"⟩]
    history := []
    locations := []
    nextId := 12
    now := 0 }

/-- Witness for C2: on `mixedBatchDB` the batch [10, 11] fails (bundle 11 is
not assigned) and the store is unchanged, by the theorem itself. -/
theorem use_batch_all_or_nothing_witness :
    (¬((applyBundleAction [] mixedBatchDB ⟨[10, 11], .utilizar, none, none⟩).2 = none)) ∧
    (applyBundleAction [] mixedBatchDB ⟨[10, 11], .utilizar, none, none⟩).1 = mixedBatchDB :=
  ⟨fun h => by
      have := (use_batch_all_or_nothing mixedBatchDB ⟨[10, 11], .utilizar, none, none⟩
        rfl (by decide)).1.mp h
      exact absurd (this ⟨11, 1, some 8, some 5, some .disponible, none, "C", "D"⟩
        (by decide) (by decide)) (by decide),
    (use_batch_all_or_nothing mixedBatchDB ⟨[10, 11], .utilizar, none, none⟩
      rfl (by decide)).2 (by decide)⟩

/-- With a reliable collaborator, the get-or-create location lookup for a
single code always resolves it to an id (either the existing row's id or the
freshly inserted one). -/
lemma ensureLocationMap_single (s : DB) (c : String) :
    ∃ s' lid, ensureLocationMap [] s [c] = (s', [], some [(c, lid)]) := by
  unfold ensureLocationMap
  have hdd : firstDedup [c] = [c] := by simp [firstDedup]
  rw [hdd]
  cases hf : s.locations.find? (fun l => l.codigo = c) with
  | some l =>
    refine ⟨s, l.id, ?_⟩
    simp [pop, hf]
  | none =>
    refine ⟨{ s with locations := s.locations ++ [⟨s.nextId, c⟩], nextId := s.nextId + 1 },
      s.nextId, ?_⟩
    simp [pop, hf, List.enum]

/-- A normalized destination is exactly a present destination whose trimmed,
upper-cased form is one of the ten fixed codes. -/
lemma normalizeLocationCode_some_iff (v : Option String) :
    (normalizeLocationCode v).isSome = true ↔
      ∃ d, v = some d ∧ strToUpper (strTrim d) ∈ LOCATION_CODES := by
  cases v with
  | none => simp [normalizeLocationCode]
  | some d =>
    by_cases hd : d = ""
    · subst hd
      simp only [normalizeLocationCode, if_pos rfl]
      constructor
      · intro h; exact absurd h (by simp)
      · rintro ⟨d, hd, hmem⟩
        obtain rfl : d = "" := by simpa using hd.symm
        exact absurd hmem (by decide)
    · simp only [normalizeLocationCode, if_neg hd]
      by_cases hn : strToUpper (strTrim d) = ""
      · rw [if_pos hn]
        constructor
        · intro h; exact absurd h (by simp)
        · rintro ⟨d2, hd2, hmem⟩
          obtain rfl : d2 = d := by simpa using hd2.symm
          rw [hn] at hmem
          exact absurd hmem (by decide)
      · rw [if_neg hn]
        by_cases hv : isValidLocationCode (strToUpper (strTrim d)) = true
        · rw [if_pos hv]
          refine ⟨fun _ => ⟨d, rfl, ?_⟩, fun _ => by simp⟩
          simpa [isValidLocationCode] using hv
        · rw [if_neg (by simpa using hv)]
          constructor
          · intro h; exact absurd h (by simp)
          · rintro ⟨d2, hd2, hmem⟩
            obtain rfl : d2 = d := by simpa using hd2.symm
            exact absurd (by simpa [isValidLocationCode] using hmem) hv

/-- C9: the "mover" action accepts a destination only when, after trimming
and upper-casing, it is one of the ten fixed codes C1..C10 of
`LOCATION_CODES`; every other destination (missing, empty, or any other
string) is rejected with the destination validation error before any
mutation — even though `ensureLocationMap`, the persistence lookup it would
then use, is get-or-create for arbitrary codes. -/
theorem mover_requires_fixed_location_code (s : DB) (inp : ApplyInput)
    (ha : inp.action = .mover) (hne : inp.bundleIds ≠ []) :
    ((applyBundleAction [] s inp).2 = none ↔
      ∃ d, inp.destinationCode = some d ∧ strToUpper (strTrim d) ∈ LOCATION_CODES) ∧
    (normalizeLocationCode inp.destinationCode = none →
      applyBundleAction [] s inp = (s, some .invalidDestination)) := by
  have hempty : inp.bundleIds.isEmpty = false := by
    cases h : inp.bundleIds with
    | nil => exact absurd h hne
    | cons a l => rfl
  cases hn : normalizeLocationCode inp.destinationCode with
  | none =>
    have heq : applyBundleAction [] s inp = (s, some .invalidDestination) := by
      unfold applyBundleAction applyValidateUse applyResolveLocation
      simp [hempty, ha, hn]
    rw [heq]
    constructor
    · simp only [ne_eq, reduceCtorEq, false_iff]
      intro hex
      have : (normalizeLocationCode inp.destinationCode).isSome = true :=
        (normalizeLocationCode_some_iff inp.destinationCode).mpr hex
      rw [hn] at this
      exact absurd this (by simp)
    · exact fun _ => rfl
  | some nd =>
    obtain ⟨s', lid, hens⟩ := ensureLocationMap_single s nd
    have h2 : (applyBundleAction [] s inp).2 = none := by
      unfold applyBundleAction applyValidateUse applyResolveLocation applyFinish applyUpdatePhase applyHistoryPhase
      simp [hempty, ha, hn, hens, pop, bundleStatusByAction]
    constructor
    · refine ⟨fun _ => ?_, fun _ => h2⟩
      have : (normalizeLocationCode inp.destinationCode).isSome = true := by
        rw [hn]; rfl
      exact (normalizeLocationCode_some_iff inp.destinationCode).mp this
    · intro hcontra
      exact Option.noConfusion hcontra

/-- Witness for C9: on the one-assigned-bundle store, moving bundle 10 to
destination " c2 " (trims and upper-cases to the valid code C2) succeeds,
while destination "c11" is rejected with the validation error and the store
is unchanged. -/
theorem mover_requires_fixed_location_code_witness :
    (applyBundleAction [] oneAssignedDB ⟨[10], .mover, some " c2 ", none⟩).2 = none ∧
    applyBundleAction [] oneAssignedDB ⟨[10], .mover, some "c11", none⟩
      = (oneAssignedDB, some .invalidDestination) :=
  ⟨(mover_requires_fixed_location_code oneAssignedDB ⟨[10], .mover, some " c2 ", none⟩
      rfl (by decide)).1.mpr ⟨" c2 ", rfl, by decide⟩,
    (mover_requires_fixed_location_code oneAssignedDB ⟨[10], .mover, some "c11", none⟩
      rfl (by decide)).2 (by decide)⟩

/-! ## The history-derived work order -/

instance : IsTotal RawHistory (fun a b => histKey a ≤ histKey b) :=
  ⟨fun a b => Nat.le_total (histKey a) (histKey b)⟩

instance : IsTrans RawHistory (fun a b => histKey a ≤ histKey b) :=
  ⟨fun _ _ _ => Nat.le_trans⟩

/-- Scanning a timestamp-sorted list backwards, the first match is a match
of maximal timestamp among all matches. -/
lemma find?_reverse_sorted {p : RawHistory → Bool} {l : List RawHistory}
    (hs : List.Sorted (fun a b => histKey a ≤ histKey b) l) {e : RawHistory}
    (h : l.reverse.find? p = some e) :
    p e = true ∧ ∀ x ∈ l, p x = true → histKey x ≤ histKey e := by
  induction l with
  | nil => simp at h
  | cons a t ih =>
    rw [List.reverse_cons, List.find?_append] at h
    rw [List.sorted_cons] at hs
    cases hf : t.reverse.find? p with
    | some e2 =>
      rw [hf] at h
      simp only [Option.or] at h
      obtain rfl : e2 = e := by simpa using h
      obtain ⟨hpe, hbound⟩ := ih hs.2 hf
      refine ⟨hpe, ?_⟩
      intro x hx hpx
      rcases List.mem_cons.mp hx with rfl | hxt
      · exact hs.1 _ (List.mem_reverse.mp (List.mem_of_find?_eq_some hf))
      · exact hbound x hxt hpx
    | none =>
      rw [hf] at h
      simp only [Option.or] at h
      by_cases hp : p a
      · simp only [List.find?, hp] at h
        obtain rfl : a = e := by simpa using h
        refine ⟨hp, ?_⟩
        intro x hx hpx
        rcases List.mem_cons.mp hx with rfl | hxt
        · exact le_refl _
        · exact absurd hpx
            (List.find?_eq_none.mp hf x (List.mem_reverse.mpr hxt))
      · simp only [List.find?, Bool.not_eq_true] at hp
        simp [List.find?, hp] at h

/-- C5: the projected `workOrder` of a bundle is the work-order number of a
latest history entry carrying a non-empty work-order number (maximal
timestamp among all such entries), and it is the "none" sentinel
("Sin orden") whenever the bundle's status is `disponible`. -/
theorem bundle_work_order_from_history (b : RawBundle) :
    (b.estado = some .disponible → (mapBundle b).workOrder = workOrderSentinel) ∧
    (b.estado ≠ some .disponible →
      ∀ e ∈ b.historial.getD [], qualifiesWorkOrder e = true →
        ∃ e2, e2 ∈ b.historial.getD [] ∧ qualifiesWorkOrder e2 = true ∧
          (mapBundle b).workOrder = e2.numero_trabajo.getD workOrderSentinel ∧
          ∀ x ∈ b.historial.getD [], qualifiesWorkOrder x = true →
            histKey x ≤ histKey e2) := by
  have hwo : (mapBundle b).workOrder
      = latestWorkOrder b.estado (sortHistoryByTime (b.historial.getD [])) := rfl
  constructor
  · intro hst
    rw [hwo]
    unfold latestWorkOrder
    rw [if_pos hst]
  · intro hst e he hq
    have hperm : (sortHistoryByTime (b.historial.getD [])).Perm (b.historial.getD []) :=
      List.perm_insertionSort (fun a b => histKey a ≤ histKey b) (b.historial.getD [])
    have hsorted : List.Sorted (fun a b => histKey a ≤ histKey b)
        (sortHistoryByTime (b.historial.getD [])) :=
      List.sorted_insertionSort (fun a b => histKey a ≤ histKey b) (b.historial.getD [])
    have hmem : e ∈ sortHistoryByTime (b.historial.getD []) := hperm.mem_iff.mpr he
    have hsomefind :
        ((sortHistoryByTime (b.historial.getD [])).reverse.find? qualifiesWorkOrder).isSome := by
      rw [List.find?_isSome]
      exact ⟨e, List.mem_reverse.mpr hmem, hq⟩
    obtain ⟨e2, hf⟩ := Option.isSome_iff_exists.mp hsomefind
    obtain ⟨hpe2, hbound⟩ := find?_reverse_sorted hsorted hf
    have he2mem : e2 ∈ b.historial.getD [] :=
      hperm.mem_iff.mp (List.mem_reverse.mp (List.mem_of_find?_eq_some hf))
    refine ⟨e2, he2mem, hpe2, ?_, ?_⟩
    · rw [hwo]
      unfold latestWorkOrder
      rw [if_neg hst]
      unfold lastWorkOrderEntry
      rw [hf]
    · intro x hx hpx
      exact hbound x (hperm.mem_iff.mpr hx) hpx

/-- The raw bundle of the claim's scenario: history
`[assign(wo = "A") at time 100, move(loc = "X") at time 200]`, status not
`disponible`. -/
def workOrderDemoBundle : RawBundle :=
  { id := 10
    numero_bulto := some 7
    cantidad_laminas := some 5
    estado := some .asignado
    ubicacion_codigo := some "C1"
    historial := some [⟨some .asignar, some "A", some 100, none⟩,
                       ⟨some .mover, none, some 200, some "X"⟩]
    creado_en := some 50
    sscc := some "s"
    luid := some "l" }

/-- Witness for C5: after `[assign(wo="A"), move(loc="X")]` the projected
work order is "A", not the "none" sentinel (concretely evaluated), and the
theorem applies to the assign entry of that bundle. -/
theorem bundle_work_order_from_history_witness :
    workOrderDemoBundle.estado ≠ some .disponible ∧
    (mapBundle workOrderDemoBundle).workOrder = "A" ∧
    (∃ e2, e2 ∈ workOrderDemoBundle.historial.getD [] ∧
      qualifiesWorkOrder e2 = true ∧
      (mapBundle workOrderDemoBundle).workOrder = e2.numero_trabajo.getD workOrderSentinel ∧
      ∀ x ∈ workOrderDemoBundle.historial.getD [], qualifiesWorkOrder x = true →
        histKey x ≤ histKey e2) :=
  ⟨by decide, by decide,
    (bundle_work_order_from_history workOrderDemoBundle).2 (by decide)
      ⟨some .asignar, some "A", some 100, none⟩ (by decide) (by decide)⟩

/-! ## Display-name disambiguation -/

instance : IsTotal ProjBundle (fun a c => displaySortKey a ≤ displaySortKey c) :=
  ⟨fun a c => Nat.le_total (displaySortKey a) (displaySortKey c)⟩

instance : IsTrans ProjBundle (fun a c => displaySortKey a ≤ displaySortKey c) :=
  ⟨fun _ _ _ => Nat.le_trans⟩

/-- C8: for every list of projected bundles with pairwise-distinct ids,
within each group sharing the same decoded base number a member of a
singleton group keeps its bare name, while in a group of two or more,
arranging the group in (stably) ascending `createdAt` order, the member at
1-based position i is renamed to its base name suffixed with " - i". -/
theorem sibling_display_names (bundles : List ProjBundle)
    (hids : (bundles.map (fun b => b.id)).Nodup)
    (b : ProjBundle) (hb : b ∈ bundles) (r : Int) (hr : b.rawNumber = some r) :
    applyBundleDisplayNames bundles = bundles.map (displayRename bundles) ∧
    ((groupOf bundles b).length ≤ 1 → displayRename bundles b = b) ∧
    (1 < (groupOf bundles b).length →
      ∃ sg : List ProjBundle, sg.Perm (groupOf bundles b) ∧
        List.Sorted (fun a c => displaySortKey a ≤ displaySortKey c) sg ∧
        ∀ i (hi : i < sg.length),
          (displayRename bundles (sg.get ⟨i, hi⟩)).name
            = (sg.get ⟨i, hi⟩).baseName ++ " - " ++ toString (i + 1)) := by
  refine ⟨rfl, ?_, ?_⟩
  · intro hle
    unfold displayRename
    rw [if_pos hle]
  · intro hgt
    refine ⟨List.insertionSort (fun a c => displaySortKey a ≤ displaySortKey c)
      (groupOf bundles b), List.perm_insertionSort _ _, List.sorted_insertionSort _ _, ?_⟩
    intro i hi
    have hperm := List.perm_insertionSort
      (fun a c => displaySortKey a ≤ displaySortKey c) (groupOf bundles b)
    have hnodupb : bundles.Nodup := List.Nodup.of_map _ hids
    have hnodupg : (groupOf bundles b).Nodup := hnodupb.filter _
    have hnodups : (List.insertionSort (fun a c => displaySortKey a ≤ displaySortKey c)
        (groupOf bundles b)).Nodup := hperm.nodup_iff.mpr hnodupg
    set sg := List.insertionSort (fun a c => displaySortKey a ≤ displaySortKey c)
      (groupOf bundles b) with hsg
    set x := sg.get ⟨i, hi⟩ with hx
    have hx_sg : x ∈ sg := List.get_mem sg i hi
    have hx_group : x ∈ groupOf bundles b := hperm.mem_iff.mp hx_sg
    have hkey : groupKey x = groupKey b := by
      have := (List.mem_filter.mp hx_group).2
      simpa using this
    have hgroup_eq : groupOf bundles x = groupOf bundles b := by
      unfold groupOf
      exact List.filter_congr (fun c _ => by rw [hkey])
    have hidx : List.indexOf x sg = i := by
      rw [hx]
      exact List.get_indexOf hnodups (Fin.mk i hi)
    unfold displayRename
    rw [hgroup_eq, if_neg (by omega), ← hsg]
    dsimp only
    rw [hidx]

/-- A projected bundle for the display-name scenario. -/
def displayDemoBundle (i : Nat) (base : Int) (t : Nat) : ProjBundle :=
  { id := i
    name := "Bulto #" ++ toString base
    baseName := "Bulto #" ++ toString base
    rawNumber := some base
    createdAt := some t
    currentLocation := "C1"
    sheets := 1
    workOrder := workOrderSentinel
    availability := "Disponible"
    status := "Disponible"
    sscc := ""
    luid := ""
    history := [] }

/-- The display-name scenario: three siblings of base 7 created at 9:05,
9:00 and 9:10 (as minute timestamps), plus a singleton of base 9. -/
def displayDemoList : List ProjBundle :=
  [displayDemoBundle 1 7 545, displayDemoBundle 2 7 540,
   displayDemoBundle 3 7 550, displayDemoBundle 4 9 100]

/-- Witness for C8: on the concrete list, the three same-base siblings are
renamed by ascending creation time (" - 2", " - 1", " - 3" in list order)
while the singleton keeps its bare name; the theorem applies to the group of
the first sibling. -/
theorem sibling_display_names_witness :
    ((applyBundleDisplayNames displayDemoList).map (fun c => c.name))
      = ["Bulto #7 - 2", "Bulto #7 - 1", "Bulto #7 - 3", "Bulto #9"] ∧
    (displayDemoBundle 4 9 100).rawNumber = some 9 ∧
    (groupOf displayDemoList (displayDemoBundle 4 9 100)).length ≤ 1 ∧
    displayRename displayDemoList (displayDemoBundle 4 9 100) = displayDemoBundle 4 9 100 ∧
    (1 < (groupOf displayDemoList (displayDemoBundle 1 7 545)).length ∧
      ∃ sg : List ProjBundle, sg.Perm (groupOf displayDemoList (displayDemoBundle 1 7 545)) ∧
        List.Sorted (fun a c => displaySortKey a ≤ displaySortKey c) sg ∧
        ∀ i (hi : i < sg.length),
          (displayRename displayDemoList (sg.get ⟨i, hi⟩)).name
            = (sg.get ⟨i, hi⟩).baseName ++ " - " ++ toString (i + 1)) :=
  ⟨by decide, by decide, by decide,
    (sibling_display_names displayDemoList (by decide) (displayDemoBundle 4 9 100)
      (by decide) 9 (by decide)).2.1 (by decide),
    ⟨by decide,
      (sibling_display_names displayDemoList (by decide) (displayDemoBundle 1 7 545)
        (by decide) 7 (by decide)).2.2 (by decide)⟩⟩

/-! ## The order-status aggregator -/

/-- Every order row carrying this id is inactive. -/
def orderInactive (s : DB) (oid : Nat) : Bool :=
  s.orders.all (fun o => !(o.id == oid) || !o.activo)

/-- One invocation of the engine: a batch bundle action or a split, together
with its collaborator failure behaviour. -/
inductive Act
  | bundleAct (fl : List Bool) (inp : ApplyInput)
  | split (fl : List Bool) (inp : SplitInput)

/-- Run one invocation, keeping whatever state it leaves behind (also on a
thrown error, matching the absence of rollback in the source). -/
def runAction (s : DB) : Act → DB
  | .bundleAct fl inp => (applyBundleAction fl s inp).1
  | .split fl inp => (splitBundle fl s inp).1

/-- Run a sequence of invocations. -/
def runActions (s : DB) (acts : List Act) : DB := acts.foldl runAction s

/-- Deactivating reads only the bundle table, which `setOrderInactive` does
not touch. -/
lemma shouldDeactivate_setOrderInactive (s : DB) (o2 oid : Nat) :
    shouldDeactivate (setOrderInactive s o2) oid = shouldDeactivate s oid := rfl

/-- The per-row effect of one pass of the deactivation loop over the work
list `l`: rows of a to-deactivate order in `l` lose their active flag. -/
def deactivateIn (l : List Nat) (s : DB) (o : OrderRow) : OrderRow :=
  if l.contains o.id && shouldDeactivate s o.id then { o with activo := false } else o

lemma deactivateIn_setOrderInactive (rest : List Nat) (s : DB) (o2 : Nat) :
    deactivateIn rest (setOrderInactive s o2) = deactivateIn rest s := rfl

lemma deactivateIn_cons_should (s : DB) (oid : Nat) (rest : List Nat)
    (hnot : oid ∉ rest) (hsd : shouldDeactivate s oid = true) (o : OrderRow) :
    deactivateIn rest s (if o.id = oid then { o with activo := false } else o)
      = deactivateIn (oid :: rest) s o := by
  by_cases ho : o.id = oid
  · have hc1 : rest.contains oid = false := by
      rw [← Bool.not_eq_true]
      simpa using hnot
    simp [deactivateIn, ho, hc1, hsd, List.contains_cons]
  · simp [deactivateIn, List.contains_cons, ho]

lemma deactivateIn_cons_not_should (s : DB) (oid : Nat) (rest : List Nat)
    (hnot : oid ∉ rest) (hsd : shouldDeactivate s oid = false) (o : OrderRow) :
    deactivateIn rest s o = deactivateIn (oid :: rest) s o := by
  by_cases ho : o.id = oid
  · have hc1 : rest.contains o.id = false := by
      rw [← Bool.not_eq_true]
      rw [ho]
      simpa using hnot
    simp [deactivateIn, ho, hc1, hsd, List.contains_cons]
  · simp [deactivateIn, List.contains_cons, ho]

/-- The per-order loop with a reliable collaborator deactivates exactly the
orders of its (duplicate-free) work list whose bundles are all used. -/
lemma checkOrderLoop_nil_eq (l : List Nat) (hl : l.Nodup) (s : DB) :
    checkOrderLoop s [] l = ({ s with orders := s.orders.map (deactivateIn l s) }, []) := by
  induction l generalizing s with
  | nil =>
    have h2 : ∀ o ∈ s.orders, deactivateIn [] s o = id o := fun o _ => by
      simp [deactivateIn]
    have hmap : s.orders.map (deactivateIn [] s) = s.orders := by
      rw [List.map_congr_left h2, List.map_id]
    simp [checkOrderLoop, hmap]
  | cons oid rest ih =>
    have hrest : rest.Nodup := hl.of_cons
    have hnotmem : oid ∉ rest := (List.nodup_cons.mp hl).1
    by_cases hsd : shouldDeactivate s oid = true
    · have h1 : checkOrderLoop s [] (oid :: rest)
          = checkOrderLoop (setOrderInactive s oid) [] rest := by
        simp [checkOrderLoop, pop, hsd]
      rw [h1, ih hrest (setOrderInactive s oid), deactivateIn_setOrderInactive]
      have horders : (setOrderInactive s oid).orders.map (deactivateIn rest s)
          = s.orders.map (deactivateIn (oid :: rest) s) := by
        simp only [setOrderInactive, List.map_map]
        exact List.map_congr_left
          (fun o _ => deactivateIn_cons_should s oid rest hnotmem hsd o)
      rw [horders]
      rfl
    · have h1 : checkOrderLoop s [] (oid :: rest) = checkOrderLoop s [] rest := by
        simp [checkOrderLoop, pop, hsd]
      rw [h1, ih hrest s]
      have horders : s.orders.map (deactivateIn rest s)
          = s.orders.map (deactivateIn (oid :: rest) s) := by
        exact List.map_congr_left (fun o _ => deactivateIn_cons_not_should s oid rest
          hnotmem (by simpa using hsd) o)
      rw [horders]

/-- First-occurrence deduplication produces a duplicate-free list. -/
lemma firstDedup_aux_nodup {α : Type} [DecidableEq α] (l : List α) :
    ∀ acc : List α, acc.Nodup →
      (l.foldl (fun acc a => if a ∈ acc then acc else acc ++ [a]) acc).Nodup := by
  induction l with
  | nil => intro acc hacc; exact hacc
  | cons a t ih =>
    intro acc hacc
    simp only [List.foldl_cons]
    by_cases h : a ∈ acc
    · rw [if_pos h]; exact ih acc hacc
    · rw [if_neg h]
      refine ih (acc ++ [a]) ?_
      rw [List.nodup_append]
      exact ⟨hacc, List.nodup_singleton a, by simpa [List.disjoint_singleton] using h⟩

lemma firstDedup_nodup {α : Type} [DecidableEq α] (l : List α) : (firstDedup l).Nodup :=
  firstDedup_aux_nodup l [] List.nodup_nil

/-- A set-inactive write never turns an inactive order active. -/
lemma orderInactive_setOrderInactive {s : DB} {oid : Nat}
    (h : orderInactive s oid = true) (o2 : Nat) :
    orderInactive (setOrderInactive s o2) oid = true := by
  rw [orderInactive, List.all_eq_true] at h ⊢
  intro o ho
  simp only [setOrderInactive, List.mem_map] at ho
  obtain ⟨o1, ho1, rfl⟩ := ho
  by_cases ho2 : o1.id = o2
  · simp [ho2]
  · simpa [ho2] using h o1 ho1

/-- The deactivation loop never turns an inactive order active, whatever the
collaborator does. -/
lemma orderInactive_checkOrderLoop {oid : Nat} :
    ∀ (l : List Nat) (fl : List Bool) (s : DB), orderInactive s oid = true →
      orderInactive (checkOrderLoop s fl l).1 oid = true := by
  intro l
  induction l with
  | nil => intro fl s h; simpa [checkOrderLoop] using h
  | cons a t ih =>
    intro fl s h
    unfold checkOrderLoop
    repeat' split
    all_goals first
      | exact ih _ _ h
      | exact ih _ _ (orderInactive_setOrderInactive h a)

/-- `checkAndUpdateOrderStatus` never turns an inactive order active. -/
lemma orderInactive_checkAndUpdate {oid : Nat} (fl : List Bool) (s : DB) (ids : List Nat)
    (h : orderInactive s oid = true) :
    orderInactive (checkAndUpdateOrderStatus fl s ids).1 oid = true := by
  unfold checkAndUpdateOrderStatus
  repeat' split
  · exact h
  · exact orderInactive_checkOrderLoop _ _ _ h

/-- The location get-or-create only appends location rows. -/
lemma ensureLocationMap_orders (fl : List Bool) (s : DB) (codes : List String) :
    (ensureLocationMap fl s codes).1.orders = s.orders := by
  unfold ensureLocationMap
  repeat' split
  all_goals try rfl
  all_goals (dsimp only; split <;> rfl)

/-- The history phase never turns an inactive order active. -/
lemma orderInactive_applyHistoryPhase {oid : Nat} (fl : List Bool) (s : DB)
    (inp : ApplyInput) (locationId : Option Nat) (hwo : Option String)
    (h : orderInactive s oid = true) :
    orderInactive (applyHistoryPhase fl s inp locationId hwo).1 oid = true := by
  unfold applyHistoryPhase
  repeat' split
  all_goals first
    | exact h
    | exact orderInactive_checkAndUpdate _ _ _ h

/-- `applyFinish` never turns an inactive order active. -/
lemma orderInactive_applyFinish {oid : Nat} (fl : List Bool) (s : DB) (inp : ApplyInput)
    (locationId : Option Nat) (hwo : Option String) (h : orderInactive s oid = true) :
    orderInactive (applyFinish fl s inp locationId hwo).1 oid = true := by
  unfold applyFinish
  repeat' split
  all_goals first
    | exact h
    | exact orderInactive_applyHistoryPhase _ _ _ _ _ h

/-- Order inactivity only looks at the order table. -/
lemma orderInactive_congr {s s' : DB} (horders : s'.orders = s.orders) (oid : Nat) :
    orderInactive s' oid = orderInactive s oid := by
  simp [orderInactive, horders]

/-- The destination resolution never turns an inactive order active. -/
lemma orderInactive_applyResolveLocation {oid : Nat} (fl : List Bool) (s : DB)
    (inp : ApplyInput) (h : orderInactive s oid = true) :
    orderInactive (applyResolveLocation fl s inp).1 oid = true := by
  have horders : (applyResolveLocation fl s inp).1.orders = s.orders := by
    unfold applyResolveLocation
    split
    next hmov =>
      split
      next hnorm => rfl
      next nd hnorm =>
        split
        next s1 fl1 heq =>
          have h2 := ensureLocationMap_orders fl s [nd]
          rw [heq] at h2
          exact h2
        next s1 fl1 lm heq =>
          split
          next hfind =>
            have h2 := ensureLocationMap_orders fl s [nd]
            rw [heq] at h2
            exact h2
          next lid hfind =>
            have h2 := ensureLocationMap_orders fl s [nd]
            rw [heq] at h2
            exact h2
    next hmov => rfl
  rw [orderInactive_congr horders]
  exact h

/-- `applyBundleAction` never turns an inactive order active. -/
lemma orderInactive_applyBundleAction {oid : Nat} (fl : List Bool) (s : DB)
    (inp : ApplyInput) (h : orderInactive s oid = true) :
    orderInactive (applyBundleAction fl s inp).1 oid = true := by
  unfold applyBundleAction
  split
  next => exact h
  next =>
    split
    next x e hval => exact h
    next fl1 hval =>
      split
      next s1 x2 x3 e1 hres =>
        have h2 := orderInactive_applyResolveLocation fl1 s inp h
        rw [hres] at h2
        exact h2
      next s1 fl2 locId hres =>
        have h2 := orderInactive_applyResolveLocation fl1 s inp h
        rw [hres] at h2
        dsimp only
        repeat' split
        all_goals first
          | exact h2
          | exact orderInactive_applyFinish _ _ _ _ _ h2

/-- A split never touches the order table at all. -/
lemma splitBundle_orders (fl : List Bool) (s : DB) (inp : SplitInput) :
    ((splitBundle fl s inp).1).orders = s.orders := by
  unfold splitBundle
  split
  · rfl
  next plan hplan =>
    unfold splitPhase2
    repeat' split
    all_goals rfl

/-- A split never turns an inactive order active. -/
lemma orderInactive_splitBundle {oid : Nat} (fl : List Bool) (s : DB) (inp : SplitInput)
    (h : orderInactive s oid = true) :
    orderInactive (splitBundle fl s inp).1 oid = true := by
  rw [orderInactive_congr (splitBundle_orders fl s inp)]
  exact h

/-- No sequence of engine invocations turns an inactive order active. -/
lemma orderInactive_runActions {oid : Nat} (acts : List Act) :
    ∀ s : DB, orderInactive s oid = true →
      orderInactive (runActions s acts) oid = true := by
  induction acts with
  | nil => intro s h; simpa [runActions] using h
  | cons a t ih =>
    intro s h
    show orderInactive (runActions (runAction s a) t) oid = true
    refine ih _ ?_
    cases a with
    | bundleAct fl inp => exact orderInactive_applyBundleAction fl s inp h
    | split fl inp => exact orderInactive_splitBundle fl s inp h

/-- C6: with a reliable collaborator, the aggregator rewrites the order
table so that exactly the orders owning an affected bundle whose bundle set
is non-empty, entirely `usado`, and free of `disponible`/`asignado` members
lose their active flag (`deactivateIn`/`shouldDeactivate` spell out that
condition) and every other row is untouched — in particular it never writes
`activo := true`; and across every sequence of engine invocations, under any
collaborator behaviour, an inactive order stays inactive. -/
theorem order_aggregation_exact_and_monotone :
    (∀ s ids, (checkAndUpdateOrderStatus [] s ids).1
        = { s with orders := s.orders.map (deactivateIn (touchedOrders s ids) s) }) ∧
    (∀ s acts oid, orderInactive s oid = true →
      orderInactive (runActions s acts) oid = true) := by
  constructor
  · intro s ids
    have hnd : (touchedOrders s ids).Nodup := firstDedup_nodup _
    have h1 : checkAndUpdateOrderStatus [] s ids
        = checkOrderLoop s [] (touchedOrders s ids) := by
      simp [checkAndUpdateOrderStatus, pop]
    rw [h1, checkOrderLoop_nil_eq _ hnd s]
  · intro s acts oid h
    exact orderInactive_runActions acts s h

/-- Two orders: order 1 already inactive with one assigned bundle, order 2
active with one assigned 5-sheet bundle. -/
def aggregatorDemoDB : DB :=
  { orders := [⟨1, false⟩, ⟨2, true⟩]
    bundles := [⟨10, 1, some 1, some 5, some .asignado, none, "A", "B"⟩,
                ⟨20, 2, some 1, some 5, some .asignado, none, "C", "D"⟩]
    history := []
    locations := []
    nextId := 30
    now := 0 }

/-- Use order 1's bundle, then split order 2's bundle. -/
def aggregatorDemoActs : List Act :=
  [.bundleAct [] ⟨[10], .utilizar, none, none⟩,
   .split [] ⟨20, 2, 2, ⟨"a", "b"⟩, ⟨"c", "d"⟩⟩]

/-- Witness for C6: order 1 is inactive before and stays inactive after the
use-then-split sequence, by the theorem itself. -/
theorem order_aggregation_exact_and_monotone_witness :
    orderInactive aggregatorDemoDB 1 = true ∧
    orderInactive (runActions aggregatorDemoDB aggregatorDemoActs) 1 = true :=
  ⟨by decide,
    order_aggregation_exact_and_monotone.2 aggregatorDemoDB aggregatorDemoActs 1 (by decide)⟩

/-! ## The shape of a successful split -/

/-- The combined effect of the two row updates of a successful split on the
original bundle: new sheet count and identifiers, and the one-time number
promotion when the stored number was still un-encoded. -/
def splitUpd (plan : SplitPlan) (inp : SplitInput) (r : BundleRow) : BundleRow :=
  if r.id = inp.bundleId then
    { r with
      cantidad_laminas := some plan.remainingSheets
      sscc := strTrim inp.originalIdentifiers.sscc
      luid := strTrim inp.originalIdentifiers.luid
      numero_bulto :=
        if plan.shouldNormalize then some (encodeBundleNumber plan.baseNumber 1)
        else r.numero_bulto }
  else r

/-- The sibling row a successful split inserts. -/
def splitNewRow (plan : SplitPlan) (s : DB) (inp : SplitInput) : BundleRow :=
  { id := s.nextId
    orden_corte_id := inp.orderId
    numero_bulto := some (encodeBundleNumber plan.baseNumber plan.nextVariant)
    cantidad_laminas := some inp.sheets
    estado := some (plan.bundle.estado.getD .disponible)
    ubicacion_id := plan.bundle.ubicacion_id
    sscc := strTrim inp.newBundleIdentifiers.sscc
    luid := strTrim inp.newBundleIdentifiers.luid }

/-- With a reliable collaborator the write suffix of a split performs the
row update (with promotion when due), appends the new sibling, and appends
the two identically timestamped history entries. -/
lemma splitPhase2_reliable (plan : SplitPlan) (s : DB) (inp : SplitInput)
    (hfl : plan.fl = []) :
    splitPhase2 plan s inp =
      ({ s with
          bundles := s.bundles.map (splitUpd plan inp) ++ [splitNewRow plan s inp]
          history := s.history ++
            [⟨plan.bundle.id, .dividir, plan.bundle.ubicacion_id, none, s.now⟩,
             ⟨s.nextId, .dividir, plan.bundle.ubicacion_id, none, s.now⟩]
          nextId := s.nextId + 1
          now := s.now + 1 }, none) := by
  unfold splitPhase2
  rw [hfl]
  by_cases hn : plan.shouldNormalize = true
  · have hbundles : (s.bundles.map (fun r =>
        if r.id = inp.bundleId then
          { r with
            cantidad_laminas := some plan.remainingSheets
            sscc := strTrim inp.originalIdentifiers.sscc
            luid := strTrim inp.originalIdentifiers.luid }
        else r)).map (fun r =>
          if r.id = inp.bundleId then
            { r with numero_bulto := some (encodeBundleNumber plan.baseNumber 1) }
          else r)
        = s.bundles.map (splitUpd plan inp) := by
      rw [List.map_map]
      refine List.map_congr_left (fun r _ => ?_)
      by_cases hr : r.id = inp.bundleId
      · simp [Function.comp, hr, splitUpd, hn]
      · simp [Function.comp, hr, splitUpd]
    simp only [pop, hn, if_true, Bool.not_true, Bool.false_eq_true, if_false]
    try dsimp only
    rw [hbundles]
    rfl
  · have hn2 : plan.shouldNormalize = false := by simpa using hn
    have hbundles : s.bundles.map (fun r =>
        if r.id = inp.bundleId then
          { r with
            cantidad_laminas := some plan.remainingSheets
            sscc := strTrim inp.originalIdentifiers.sscc
            luid := strTrim inp.originalIdentifiers.luid }
        else r)
        = s.bundles.map (splitUpd plan inp) := by
      refine List.map_congr_left (fun r _ => ?_)
      by_cases hr : r.id = inp.bundleId
      · simp [hr, splitUpd, hn2]
      · simp [hr, splitUpd]
    simp only [pop, hn2, Bool.false_eq_true, if_false, Bool.not_true]
    try dsimp only
    rw [hbundles]
    rfl

/-- With every validation satisfied, the read prefix of a split returns
exactly the plan computed from the fetched row. -/
lemma splitPhase1_reliable_ok (s : DB) (inp : SplitInput) (b : BundleRow) (bb : Int)
    (hfetch : s.bundles.filter (fun r => r.id = inp.bundleId) = [b])
    (h0 : 0 < inp.sheets)
    (h1 : strTrim inp.originalIdentifiers.sscc ≠ "")
    (h2 : strTrim inp.originalIdentifiers.luid ≠ "")
    (h3 : strTrim inp.newBundleIdentifiers.sscc ≠ "")
    (h4 : strTrim inp.newBundleIdentifiers.luid ≠ "")
    (horder : b.orden_corte_id = inp.orderId)
    (hS : inp.sheets < b.cantidad_laminas.getD 0)
    (hbase : (decodeBundleNumber b.numero_bulto).base = some bb)
    (hbb : bb ≠ 0) :
    splitPhase1 [] s inp = .ok ⟨[], b, bb, highestVariantOf s inp.orderId bb + 1,
      shouldNormalizeOf b.numero_bulto, b.cantidad_laminas.getD 0 - inp.sheets⟩ := by
  unfold splitPhase1
  rw [if_neg (by omega), if_neg (by simp [h1, h2, h3, h4])]
  simp only [pop]
  rw [hfetch]
  dsimp only
  rw [if_neg (show ¬b.orden_corte_id ≠ inp.orderId by simp [horder]), hbase]
  dsimp only
  rw [if_neg hbb,
    if_neg (show ¬(b.cantidad_laminas.getD 0 ≤ inp.sheets) by omega)]
  simp

/-- The head-seeded fold of `max` dominates its seed. -/
lemma foldl_max_le_init (v : Int) (vs : List Int) : v ≤ vs.foldl max v := by
  induction vs generalizing v with
  | nil => exact le_refl v
  | cons a t ih => exact le_trans (le_max_left v a) (ih (max v a))

/-- The sibling-group maximum is always at least the default 1. -/
lemma one_le_highestVariantOf (s : DB) (orderId : Nat) (bb : Int) :
    1 ≤ highestVariantOf s orderId bb := by
  unfold highestVariantOf
  dsimp only
  cases hv : ((s.bundles.filter (fun r => r.orden_corte_id = orderId)).filter
      (fun r => (decodeBundleNumber r.numero_bulto).base = some bb)).filterMap
      (fun r => (decodeBundleNumber r.numero_bulto).variant) with
  | nil => exact le_refl 1
  | cons v vs =>
    have hvmem : v ∈ ((s.bundles.filter (fun r => r.orden_corte_id = orderId)).filter
        (fun r => (decodeBundleNumber r.numero_bulto).base = some bb)).filterMap
        (fun r => (decodeBundleNumber r.numero_bulto).variant) := by
      rw [hv]; exact List.mem_cons_self v vs
    obtain ⟨r, -, hr⟩ := List.mem_filterMap.mp hvmem
    exact le_trans (decode_variant_pos r.numero_bulto v hr) (foldl_max_le_init v vs)

/-- The split update does not change row ids, so filtering by id commutes
with it. -/
lemma filter_id_map_splitUpd (plan : SplitPlan) (inp : SplitInput)
    (l : List BundleRow) (bid : Nat) :
    (l.map (splitUpd plan inp)).filter (fun r => r.id = bid)
      = (l.filter (fun r => r.id = bid)).map (splitUpd plan inp) := by
  rw [List.filter_map]
  congr 1
  refine List.filter_congr (fun r _ => ?_)
  by_cases hr : r.id = inp.bundleId <;> simp [splitUpd, Function.comp, hr]

/-- C4 (amended): with reliable persistence, a requested quantity k outside
(0, S) is rejected before any mutation; for 0 < k < S (with resolvable
positive base) the split succeeds, the original bundle is left with S - k
sheets and the new bundle holds k sheets, and — provided the allocated next
variant stays within the encoding range (≤ 999) — both bundles decode to the
same base number.  (At next variant 1000 the encoding overflows into the
next base, see the counterexample.) -/
theorem split_conservation (s : DB) (inp : SplitInput) (b : BundleRow)
    (hfetch : s.bundles.filter (fun r => r.id = inp.bundleId) = [b])
    (horder : b.orden_corte_id = inp.orderId)
    (h1 : strTrim inp.originalIdentifiers.sscc ≠ "")
    (h2 : strTrim inp.originalIdentifiers.luid ≠ "")
    (h3 : strTrim inp.newBundleIdentifiers.sscc ≠ "")
    (h4 : strTrim inp.newBundleIdentifiers.luid ≠ "")
    (hfresh : inp.bundleId ≠ s.nextId) :
    ((inp.sheets ≤ 0 ∨ b.cantidad_laminas.getD 0 ≤ inp.sheets) →
      (splitBundle [] s inp).1 = s ∧ (splitBundle [] s inp).2 ≠ none) ∧
    (∀ bb, 0 < inp.sheets → inp.sheets < b.cantidad_laminas.getD 0 →
      (decodeBundleNumber b.numero_bulto).base = some bb → 1 ≤ bb →
      highestVariantOf s inp.orderId bb + 1 ≤ 999 →
      (splitBundle [] s inp).2 = none ∧
      (((splitBundle [] s inp).1.bundles.filter (fun r => r.id = inp.bundleId)).map
          (fun r => r.cantidad_laminas))
        = [some (b.cantidad_laminas.getD 0 - inp.sheets)] ∧
      (((splitBundle [] s inp).1.bundles.filter (fun r => r.id = inp.bundleId)).map
          (fun r => (decodeBundleNumber r.numero_bulto).base)) = [some bb] ∧
      ∃ nb ∈ (splitBundle [] s inp).1.bundles,
        nb.id = s.nextId ∧ nb.cantidad_laminas = some inp.sheets ∧
        (decodeBundleNumber nb.numero_bulto).base = some bb) := by
  constructor
  · intro hout
    by_cases hk : inp.sheets ≤ 0
    · have heq : splitBundle [] s inp = (s, some .nonPositiveSheets) := by
        unfold splitBundle splitPhase1
        rw [if_pos hk]
      rw [heq]
      exact ⟨rfl, by simp⟩
    · have hk2 : b.cantidad_laminas.getD 0 ≤ inp.sheets := by
        rcases hout with h | h
        · exact absurd h hk
        · exact h
      have heq : splitBundle [] s inp = (s, some .sheetsTooLarge) := by
        unfold splitBundle splitPhase1
        rw [if_neg hk, if_neg (by simp [h1, h2, h3, h4])]
        simp only [pop]
        rw [hfetch]
        dsimp only
        rw [if_neg (show ¬b.orden_corte_id ≠ inp.orderId by simp [horder]),
          if_pos hk2]
        simp
      rw [heq]
      exact ⟨rfl, by simp⟩
  · intro bb h0 hS hbase hbbpos hbound
    have hbb : bb ≠ 0 := by omega
    have hplan := splitPhase1_reliable_ok s inp b bb hfetch h0 h1 h2 h3 h4 horder hS
      hbase hbb
    set plan : SplitPlan := ⟨[], b, bb, highestVariantOf s inp.orderId bb + 1,
      shouldNormalizeOf b.numero_bulto, b.cantidad_laminas.getD 0 - inp.sheets⟩ with hplandef
    have heq : splitBundle [] s inp = splitPhase2 plan s inp := by
      unfold splitBundle
      rw [hplan]
    rw [heq, splitPhase2_reliable plan s inp rfl]
    have hbid : b.id = inp.bundleId := by
      have hbmem : b ∈ s.bundles.filter (fun r => r.id = inp.bundleId) := by
        rw [hfetch]; exact List.mem_singleton_self b
      simpa using (List.mem_filter.mp hbmem).2
    have hnv1 : 1 ≤ highestVariantOf s inp.orderId bb + 1 := by
      have := one_le_highestVariantOf s inp.orderId bb
      omega
    have hfilter2 : ({ s with
        bundles := s.bundles.map (splitUpd plan inp) ++ [splitNewRow plan s inp],
        history := s.history ++
          [⟨plan.bundle.id, .dividir, plan.bundle.ubicacion_id, none, s.now⟩,
           ⟨s.nextId, .dividir, plan.bundle.ubicacion_id, none, s.now⟩],
        nextId := s.nextId + 1,
        now := s.now + 1 } : DB).bundles.filter (fun r => r.id = inp.bundleId)
        = [splitUpd plan inp b] := by
      show (s.bundles.map (splitUpd plan inp) ++ [splitNewRow plan s inp]).filter
          (fun r => r.id = inp.bundleId) = [splitUpd plan inp b]
      rw [List.filter_append, filter_id_map_splitUpd, hfetch]
      have hnew : ([splitNewRow plan s inp].filter (fun r => r.id = inp.bundleId)) = [] := by
        simp [splitNewRow, Ne.symm hfresh]
      rw [hnew]
      simp
    have hupd : splitUpd plan inp b =
        { b with
          cantidad_laminas := some (b.cantidad_laminas.getD 0 - inp.sheets)
          sscc := strTrim inp.originalIdentifiers.sscc
          luid := strTrim inp.originalIdentifiers.luid
          numero_bulto :=
            if shouldNormalizeOf b.numero_bulto then some (encodeBundleNumber bb 1)
            else b.numero_bulto } := by
      simp [splitUpd, hbid]
    have hdecodeupd : (decodeBundleNumber (splitUpd plan inp b).numero_bulto).base
        = some bb := by
      rw [hupd]
      by_cases hnorm : shouldNormalizeOf b.numero_bulto = true
      · simp only [hnorm, if_true]
        rw [decode_encode bb 1 hbbpos (by norm_num) (by norm_num)]
      · simp only [Bool.not_eq_true] at hnorm
        simp only [hnorm, Bool.false_eq_true, if_false]
        exact hbase
    refine ⟨rfl, ?_, ?_, ?_⟩
    · rw [hfilter2, hupd]
      rfl
    · rw [hfilter2]
      simp only [List.map_cons, List.map_nil, hdecodeupd]
    · refine ⟨splitNewRow plan s inp, ?_, rfl, rfl, ?_⟩
      · show splitNewRow plan s inp ∈
          s.bundles.map (splitUpd plan inp) ++ [splitNewRow plan s inp]
        exact List.mem_append_right _ (List.mem_singleton_self _)
      · show (decodeBundleNumber (some (encodeBundleNumber bb
          (highestVariantOf s inp.orderId bb + 1)))).base = some bb
        rw [decode_encode bb _ hbbpos hnv1 hbound]

/-- Witness for C4: splitting 40 off the 100-sheet bundle leaves the
original with 60 sheets and creates a 40-sheet sibling of the same base 7,
by the theorem itself. -/
theorem split_conservation_witness :
    (splitBundle [] splitDemoDB splitDemoInput).2 = none ∧
    (((splitBundle [] splitDemoDB splitDemoInput).1.bundles.filter
        (fun r => r.id = splitDemoInput.bundleId)).map (fun r => r.cantidad_laminas))
      = [some 60] ∧
    (((splitBundle [] splitDemoDB splitDemoInput).1.bundles.filter
        (fun r => r.id = splitDemoInput.bundleId)).map
        (fun r => (decodeBundleNumber r.numero_bulto).base)) = [some 7] ∧
    (∃ nb ∈ (splitBundle [] splitDemoDB splitDemoInput).1.bundles,
      nb.id = splitDemoDB.nextId ∧ nb.cantidad_laminas = some splitDemoInput.sheets ∧
      (decodeBundleNumber nb.numero_bulto).base = some 7) :=
  have h := (split_conservation splitDemoDB splitDemoInput
      ⟨10, 1, some 7, some 100, some .disponible, some 3, "A", "B"⟩
      (by decide) (by decide) (by decide) (by decide) (by decide) (by decide)
      (by decide)).2 7 (by decide) (by decide) (by decide) (by decide) (by decide)
  ⟨h.1, by rw [h.2.1]; decide, h.2.2.1, h.2.2.2⟩

/-! ## Iterated splits of one group -/

/-- The stored numbers of a fully promoted sibling group of size m:
`encode b 1, ..., encode b m` in creation order. -/
def encodedRange (b : Int) (m : Nat) : List (Option Int) :=
  (List.range m).map (fun (i : Nat) => some (encodeBundleNumber b ((i : Int) + 1)))

/-- A fold of `max` seeded below an upper bound that occurs in the list
computes that bound. -/
lemma foldl_max_eq (M : Int) : ∀ (vs : List Int) (v : Int),
    (M = v ∨ M ∈ vs) → v ≤ M → (∀ x ∈ vs, x ≤ M) → vs.foldl max v = M := by
  intro vs
  induction vs with
  | nil =>
    intro v hmem hv _
    rcases hmem with h | h
    · simpa using h.symm
    · simp at h
  | cons a t ih =>
    intro v hmem hv hub
    simp only [List.foldl_cons]
    refine ih (max v a) ?_ ?_ ?_
    · rcases hmem with h | h
      · left
        have ha : a ≤ M := hub a (List.mem_cons_self a t)
        omega
      · rcases List.mem_cons.mp h with h2 | h2
        · left
          have := hub a (List.mem_cons_self a t)
          omega
        · right; exact h2
    · have := hub a (List.mem_cons_self a t)
      omega
    · exact fun x hx => hub x (List.mem_cons.mpr (Or.inr hx))

/-- `filterMap` over a list where the function always hits is a `map`. -/
lemma filterMap_all_some {α β : Type} (f : α → Option β) (g : α → β) :
    ∀ l : List α, (∀ a ∈ l, f a = some (g a)) → l.filterMap f = l.map g := by
  intro l
  induction l with
  | nil => intro _; rfl
  | cons a t ih =>
    intro h
    rw [List.filterMap_cons, h a (List.mem_cons_self a t),
      ih (fun x hx => h x (List.mem_cons.mpr (Or.inr hx))), List.map_cons]

/-- Over a fully promoted group of size m (m, b within the encoding range),
the sibling scan finds highest variant m. -/
lemma highestVariantOf_range (s : DB) (b : Int) (hb1 : 1 ≤ b) (m : Nat)
    (hm1 : 1 ≤ m) (hm2 : m ≤ 999)
    (hords : ∀ r ∈ s.bundles, r.orden_corte_id = 1)
    (hnums : s.bundles.map (fun r => r.numero_bulto) = encodedRange b m) :
    highestVariantOf s 1 b = (m : Int) := by
  have hdecode : ∀ r ∈ s.bundles, ∃ i : Nat, i < m ∧
      decodeBundleNumber r.numero_bulto = ⟨some b, some ((i : Int) + 1)⟩ := by
    intro r hr
    have h1 : r.numero_bulto ∈ (List.range m).map
        (fun (i : Nat) => some (encodeBundleNumber b ((i : Int) + 1))) := by
      show r.numero_bulto ∈ encodedRange b m
      rw [← hnums]
      exact List.mem_map_of_mem _ hr
    obtain ⟨i, hi, hnum⟩ := List.mem_map.mp h1
    have him : i < m := List.mem_range.mp hi
    refine ⟨i, him, ?_⟩
    rw [← hnum]
    exact decode_encode b ((i : Int) + 1) hb1 (by omega) (by omega)
  unfold highestVariantOf
  have h1 : s.bundles.filter (fun r => r.orden_corte_id = 1) = s.bundles :=
    List.filter_eq_self.mpr (fun r hr => by simp [hords r hr])
  rw [h1]
  dsimp only
  have h2 : s.bundles.filter
      (fun r => (decodeBundleNumber r.numero_bulto).base = some b) = s.bundles := by
    refine List.filter_eq_self.mpr (fun r hr => ?_)
    obtain ⟨i, -, hd⟩ := hdecode r hr
    simp [hd]
  rw [h2]
  have h3 : s.bundles.filterMap (fun r => (decodeBundleNumber r.numero_bulto).variant)
      = (List.range m).map (fun (i : Nat) => (i : Int) + 1) := by
    have h4 : s.bundles.filterMap (fun r => (decodeBundleNumber r.numero_bulto).variant)
        = (s.bundles.map (fun r => r.numero_bulto)).filterMap
          (fun x => (decodeBundleNumber x).variant) := by
      rw [List.filterMap_map]
      rfl
    rw [h4, hnums]
    unfold encodedRange
    rw [List.filterMap_map]
    refine filterMap_all_some _ _ _ (fun i hi => ?_)
    have him : i < m := List.mem_range.mp hi
    have := decode_encode b ((i : Int) + 1) hb1 (by omega) (by omega)
    simp [Function.comp, this]
  rw [h3]
  cases hvl : (List.range m).map (fun (i : Nat) => ((i : Int) + 1)) with
  | nil =>
    have : m = 0 := by
      have := congrArg List.length hvl
      simpa using this
    omega
  | cons v vs =>
    have hmm : (m : Int) ∈ (List.range m).map (fun (i : Nat) => ((i : Int) + 1)) := by
      refine List.mem_map.mpr ⟨m - 1, List.mem_range.mpr (by omega), ?_⟩
      omega
    rw [hvl] at hmm
    have hub : ∀ x ∈ (List.range m).map (fun (i : Nat) => ((i : Int) + 1)), x ≤ (m : Int) := by
      intro x hx
      obtain ⟨i, hi, rfl⟩ := List.mem_map.mp hx
      have := List.mem_range.mp hi
      omega
    rw [hvl] at hub
    exact foldl_max_eq (m : Int) vs v (List.mem_cons.mp hmm)
      (hub v (List.mem_cons_self v vs))
      (fun x hx => hub x (List.mem_cons.mpr (Or.inr hx)))

/-- Over the un-split starting group (one bundle, small stored number b),
the sibling scan finds highest variant 1. -/
lemma highestVariantOf_start (s : DB) (b : Int) (hb2 : b < 1000) (r0 : BundleRow)
    (hbundles : s.bundles = [r0]) (hord : r0.orden_corte_id = 1)
    (hnum : r0.numero_bulto = some b) :
    highestVariantOf s 1 b = 1 := by
  have hdec : decodeBundleNumber r0.numero_bulto = ⟨some b, some 1⟩ := by
    rw [hnum]
    simp only [decodeBundleNumber]
    rw [if_neg (show ¬BUNDLE_SPLIT_NUMBER_FACTOR ≤ b by
      unfold BUNDLE_SPLIT_NUMBER_FACTOR; omega)]
  unfold highestVariantOf
  rw [hbundles]
  simp [hord, hdec]

/-- Appending the next variant extends the promoted-group number list. -/
lemma encodedRange_succ (b : Int) (m : Nat) :
    encodedRange b (m + 1)
      = encodedRange b m ++ [some (encodeBundleNumber b ((m : Int) + 1))] := by
  unfold encodedRange
  rw [List.range_succ, List.map_append]
  rfl

/-- One active order owning one bundle with stored number b and S sheets:
the state in which a sibling group's life begins. -/
def startDB (b S : Int) : DB :=
  { orders := [⟨1, true⟩]
    bundles := [⟨10, 1, some b, some S, some .disponible, none, "A", "B"⟩]
    history := []
    locations := []
    nextId := 11
    now := 0 }

/-- The states reachable from `startDB b S` by n successful splits of the
order's bundles (any member, any quantity, any identifiers), with a
reliable collaborator. -/
inductive SplitReach (b S : Int) : Nat → DB → Prop
  | start : SplitReach b S 0 (startDB b S)
  | step {n : Nat} {s s' : DB} {inp : SplitInput} :
      SplitReach b S n s → inp.orderId = 1 →
      splitBundle [] s inp = (s', none) → SplitReach b S (n + 1) s'

/-- Invariant of iterated splits: after k ≤ 998 splits every bundle belongs
to order 1, and the stored numbers are exactly the original (k = 0) or the
promoted sequence `encode b 1 .. encode b (k+1)` in creation order. -/
lemma splitReach_inv (b S : Int) (hb1 : 1 ≤ b) (hb2 : b < 1000) :
    ∀ (k : Nat) (s : DB), SplitReach b S k s → k ≤ 998 →
      (∀ r ∈ s.bundles, r.orden_corte_id = 1) ∧
      s.bundles.map (fun r => r.numero_bulto)
        = (if k = 0 then [some b] else encodedRange b (k + 1)) := by
  intro k s h
  induction h with
  | start =>
    intro _
    constructor
    · intro r hr
      have : r = ⟨10, 1, some b, some S, some .disponible, none, "A", "B"⟩ := by
        simpa [startDB] using hr
      rw [this]
    · simp [startDB]
  | step hreach hord hsucc ih =>
    rename_i n s0 s' inp
    intro hk
    obtain ⟨hords, hnums⟩ := ih (by omega)
    cases hp : splitPhase1 [] s0 inp with
    | error e =>
      unfold splitBundle at hsucc
      rw [hp] at hsucc
      simp at hsucc
    | ok plan =>
      obtain ⟨h0, hfetch, horder2, hS2, hbase, hbb, hnv, hnorm, hrem, hfl⟩ :=
        splitPhase1_ok_facts hp
      have hfl0 : plan.fl = [] := by rw [hfl]; rfl
      unfold splitBundle at hsucc
      rw [hp] at hsucc
      dsimp only at hsucc
      rw [splitPhase2_reliable plan s0 inp hfl0] at hsucc
      have hs' : s' = { s0 with
          bundles := s0.bundles.map (splitUpd plan inp) ++ [splitNewRow plan s0 inp]
          history := s0.history ++
            [⟨plan.bundle.id, .dividir, plan.bundle.ubicacion_id, none, s0.now⟩,
             ⟨s0.nextId, .dividir, plan.bundle.ubicacion_id, none, s0.now⟩]
          nextId := s0.nextId + 1
          now := s0.now + 1 } := by
        have := congrArg Prod.fst hsucc
        exact this.symm
      have hmemb : plan.bundle ∈ s0.bundles := by
        have : plan.bundle ∈ s0.bundles.filter (fun r => r.id = inp.bundleId) := by
          rw [hfetch]
          exact List.mem_singleton_self _
        exact List.mem_of_mem_filter this
      have hordnew : ∀ r ∈ s'.bundles, r.orden_corte_id = 1 := by
        rw [hs']
        intro r hr
        show r.orden_corte_id = 1
        rcases List.mem_append.mp hr with h2 | h2
        · obtain ⟨r0, hr0, rfl⟩ := List.mem_map.mp h2
          have horig := hords r0 hr0
          unfold splitUpd
          by_cases hid : r0.id = inp.bundleId <;> simp [hid, horig]
        · have : r = splitNewRow plan s0 inp := by simpa using h2
          rw [this]
          show inp.orderId = 1
          exact hord
      by_cases hn0 : n = 0
      · subst hn0
        rw [if_pos rfl] at hnums
        cases hbl : s0.bundles with
        | nil => rw [hbl] at hnums; simp at hnums
        | cons r0 t =>
          rw [hbl] at hnums
          simp only [List.map_cons] at hnums
          have hr0num : r0.numero_bulto = some b := (List.cons_eq_cons.mp hnums).1
          have ht : t = [] := by
            have h2 := (List.cons_eq_cons.mp hnums).2
            exact List.map_eq_nil.mp h2
          subst ht
          have hpb : plan.bundle = r0 := by
            rw [hbl] at hfetch
            by_cases hid : r0.id = inp.bundleId
            · have : [r0] = [plan.bundle] := by simpa [List.filter, hid] using hfetch
              simpa using this.symm
            · exfalso
              have : ([] : List BundleRow) = [plan.bundle] := by
                simpa [List.filter, hid] using hfetch
              simp at this
          have hdecb : decodeBundleNumber (some b) = ⟨some b, some 1⟩ := by
            simp only [decodeBundleNumber]
            rw [if_neg (show ¬BUNDLE_SPLIT_NUMBER_FACTOR ≤ b by
              unfold BUNDLE_SPLIT_NUMBER_FACTOR; omega)]
          have hbbb : plan.baseNumber = b := by
            rw [hpb, hr0num, hdecb] at hbase
            simpa using hbase.symm
          have hhv : highestVariantOf s0 inp.orderId b = 1 := by
            rw [hord]
            exact highestVariantOf_start s0 b hb2 r0 hbl (hords r0 (by rw [hbl]; simp))
              hr0num
          have hnorm2 : plan.shouldNormalize = true := by
            rw [hnorm, hpb, hr0num]
            simp [shouldNormalizeOf, BUNDLE_SPLIT_NUMBER_FACTOR]
            omega
          refine ⟨hordnew, ?_⟩
          rw [hs']
          show (s0.bundles.map (splitUpd plan inp)
              ++ [splitNewRow plan s0 inp]).map (fun r => r.numero_bulto) = _
          rw [List.map_append, hbl]
          have hid0 : r0.id = inp.bundleId := by
            have : plan.bundle ∈ s0.bundles.filter (fun r => r.id = inp.bundleId) := by
              rw [hfetch]; exact List.mem_singleton_self _
            have h2 := (List.mem_filter.mp this).2
            rw [hpb] at h2
            simpa using h2
          have hupd : ([r0].map (splitUpd plan inp)).map (fun r => r.numero_bulto)
              = [some (encodeBundleNumber b 1)] := by
            simp [splitUpd, hid0, hnorm2, hbbb]
          rw [hupd]
          have hnew : ([splitNewRow plan s0 inp].map (fun r => r.numero_bulto))
              = [some (encodeBundleNumber b 2)] := by
            simp [splitNewRow, hbbb, hnv, hhv]
          rw [hnew]
          rw [if_neg (by omega)]
          show _ = encodedRange b 2
          unfold encodedRange
          simp [List.range_succ]
      · rw [if_neg hn0] at hnums
        have hn1 : 1 ≤ n := by omega
        have hjnum : ∃ j : Nat, j < n + 1 ∧
            plan.bundle.numero_bulto = some (encodeBundleNumber b ((j : Int) + 1)) := by
          have h2 : plan.bundle.numero_bulto ∈ encodedRange b (n + 1) := by
            rw [← hnums]
            exact List.mem_map_of_mem _ hmemb
          have h3 : plan.bundle.numero_bulto ∈ (List.range (n + 1)).map
              (fun (i : Nat) => some (encodeBundleNumber b ((i : Int) + 1))) := h2
          obtain ⟨j, hj, hnum⟩ := List.mem_map.mp h3
          exact ⟨j, List.mem_range.mp hj, hnum.symm⟩
        obtain ⟨j, hj, hjeq⟩ := hjnum
        have hencb : (1000 : Int) ≤ encodeBundleNumber b ((j : Int) + 1) := by
          unfold encodeBundleNumber BUNDLE_SPLIT_NUMBER_FACTOR
          omega
        have hdecj : decodeBundleNumber (some (encodeBundleNumber b ((j : Int) + 1)))
            = ⟨some b, some ((j : Int) + 1)⟩ :=
          decode_encode b ((j : Int) + 1) hb1 (by omega) (by omega)
        have hbbb : plan.baseNumber = b := by
          rw [hjeq, hdecj] at hbase
          simpa using hbase.symm
        have hnorm2 : plan.shouldNormalize = false := by
          rw [hnorm, hjeq]
          simp [shouldNormalizeOf, BUNDLE_SPLIT_NUMBER_FACTOR]
          omega
        have hhv : highestVariantOf s0 inp.orderId b = ((n + 1 : Nat) : Int) := by
          rw [hord]
          exact highestVariantOf_range s0 b hb1 (n + 1) (by omega) (by omega) hords hnums
        refine ⟨hordnew, ?_⟩
        rw [hs']
        show (s0.bundles.map (splitUpd plan inp)
            ++ [splitNewRow plan s0 inp]).map (fun r => r.numero_bulto) = _
        rw [List.map_append]
        have hupd : (s0.bundles.map (splitUpd plan inp)).map (fun r => r.numero_bulto)
            = s0.bundles.map (fun r => r.numero_bulto) := by
          rw [List.map_map]
          refine List.map_congr_left (fun r _ => ?_)
          by_cases hid : r.id = inp.bundleId <;>
            simp [Function.comp, splitUpd, hid, hnorm2]
        rw [hupd, hnums]
        have hnew : ([splitNewRow plan s0 inp].map (fun r => r.numero_bulto))
            = [some (encodeBundleNumber b (((n + 1 : Nat) : Int) + 1))] := by
          simp [splitNewRow, hbbb, hnv, hhv]
        rw [hnew]
        rw [if_neg (by omega)]
        rw [encodedRange_succ b (n + 1)]

/-- C3 (amended to 1 ≤ n ≤ 998): starting from one bundle with un-encoded
number b, any sequence of n successful splits of the group yields bundles
whose decoded (base, variant) pairs are exactly (b, 1) .. (b, n+1) in
creation order — in particular the variants are {1, ..., n+1} with no
duplicates, because each split allocates
max(decoded variant over the sibling group, default 1) + 1.  (At n = 999 the
allocated variant 1000 overflows the encoding and the new bundle decodes
into base b+1, see the counterexample.) -/
theorem split_variant_monotonicity (b S : Int) (hb1 : 1 ≤ b) (hb2 : b < 1000)
    (n : Nat) (hn1 : 1 ≤ n) (hn2 : n ≤ 998) (s : DB) (h : SplitReach b S n s) :
    s.bundles.map (fun r => decodeBundleNumber r.numero_bulto)
      = (List.range (n + 1)).map
          (fun (i : Nat) => ⟨some b, some ((i : Int) + 1)⟩) ∧
    (s.bundles.map (fun r => (decodeBundleNumber r.numero_bulto).variant)).Nodup := by
  obtain ⟨hords, hnums⟩ := splitReach_inv b S hb1 hb2 n s h hn2
  rw [if_neg (by omega)] at hnums
  have h2 : s.bundles.map (fun r => decodeBundleNumber r.numero_bulto)
      = (s.bundles.map (fun r => r.numero_bulto)).map decodeBundleNumber := by
    rw [List.map_map]
    rfl
  have hmain : s.bundles.map (fun r => decodeBundleNumber r.numero_bulto)
      = (List.range (n + 1)).map
          (fun (i : Nat) => ⟨some b, some ((i : Int) + 1)⟩) := by
    rw [h2, hnums]
    unfold encodedRange
    rw [List.map_map]
    refine List.map_congr_left (fun i hi => ?_)
    have him := List.mem_range.mp hi
    show decodeBundleNumber (some (encodeBundleNumber b ((i : Int) + 1))) = _
    exact decode_encode b ((i : Int) + 1) hb1 (by omega) (by omega)
  refine ⟨hmain, ?_⟩
  have h3 : s.bundles.map (fun r => (decodeBundleNumber r.numero_bulto).variant)
      = (s.bundles.map (fun r => decodeBundleNumber r.numero_bulto)).map
          (fun d => d.variant) := by
    rw [List.map_map]
    rfl
  rw [h3, hmain, List.map_map]
  refine List.Nodup.map ?_ (List.nodup_range (n + 1))
  intro i j hij
  simp only [Function.comp] at hij
  have : ((i : Int) + 1) = ((j : Int) + 1) := by simpa using hij
  omega

/-- The single split of the witness scenario: 4 sheets off bundle 10. -/
def monoDemoInput : SplitInput := ⟨10, 1, 4, ⟨"S1", "L1"⟩, ⟨"S2", "L2"⟩⟩

/-- Witness for C3: one split of the 10-sheet bundle numbered 7 yields the
sibling group (7, 1), (7, 2), by the theorem applied to the one-step
reachable state. -/
theorem split_variant_monotonicity_witness :
    ((splitBundle [] (startDB 7 10) monoDemoInput).1.bundles.map
        (fun r => decodeBundleNumber r.numero_bulto))
      = [⟨some 7, some 1⟩, ⟨some 7, some 2⟩] := by
  have hreach : SplitReach 7 10 1 ((splitBundle [] (startDB 7 10) monoDemoInput).1) :=
    @SplitReach.step 7 10 0 (startDB 7 10)
      ((splitBundle [] (startDB 7 10) monoDemoInput).1) monoDemoInput
      SplitReach.start rfl (by decide)
  have h := (split_variant_monotonicity 7 10 (by norm_num) (by norm_num) 1 (by norm_num)
    (by norm_num) _ hreach).1
  rw [h]
  decide

/-- The fixed one-sheet split request driving the overflow scenario. -/
def seqInput : SplitInput := ⟨10, 1, 1, ⟨"A", "B"⟩, ⟨"C", "D"⟩⟩

/-- k iterations of that split, starting from a 1000-sheet bundle numbered 7. -/
def seqSplit : Nat → DB
  | 0 => startDB 7 1000
  | k + 1 => (splitBundle [] (seqSplit k) seqInput).1

/-- The row bundle 10 holds after k iterations (its number is promoted to
7·1000 + 1 = 7001 by the first split and kept thereafter). -/
def seqRow (k : Nat) : BundleRow :=
  ⟨10, 1, some (if k = 0 then (7 : Int) else 7001), some ((1000 : Int) - (k : Int)),
   some .disponible, none, "A", "B"⟩

/-- The plan the k-th iteration's validation phase produces. -/
def seqPlan (k : Nat) : SplitPlan :=
  ⟨[], seqRow k, 7, highestVariantOf (seqSplit k) 1 7 + 1,
   shouldNormalizeOf (seqRow k).numero_bulto,
   (seqRow k).cantidad_laminas.getD 0 - seqInput.sheets⟩

lemma seqPhase1_ok (k : Nat) (hk : k ≤ 998)
    (hfk : (seqSplit k).bundles.filter (fun r => r.id = seqInput.bundleId)
      = [seqRow k]) :
    splitPhase1 [] (seqSplit k) seqInput = .ok (seqPlan k) := by
  have hS : seqInput.sheets < (seqRow k).cantidad_laminas.getD 0 := by
    show (1 : Int) < ((1000 : Int) - (k : Int))
    omega
  have hbase : (decodeBundleNumber (seqRow k).numero_bulto).base = some 7 := by
    by_cases hk0 : k = 0
    · rw [hk0]
      decide
    · have h1 : (seqRow k).numero_bulto = some 7001 := by
        show some (if k = 0 then (7 : Int) else 7001) = some 7001
        rw [if_neg hk0]
      rw [h1]
      decide
  exact splitPhase1_reliable_ok (seqSplit k) seqInput (seqRow k) 7 hfk (by decide)
    (by decide) (by decide) (by decide) (by decide) rfl hS hbase (by decide)

lemma seqSplit_shape (k : Nat) (hk : k ≤ 998)
    (hfk : (seqSplit k).bundles.filter (fun r => r.id = seqInput.bundleId)
      = [seqRow k]) :
    splitBundle [] (seqSplit k) seqInput = (seqSplit (k + 1), none) ∧
    (seqSplit (k + 1)).bundles
      = (seqSplit k).bundles.map (splitUpd (seqPlan k) seqInput)
        ++ [splitNewRow (seqPlan k) (seqSplit k) seqInput] ∧
    (seqSplit (k + 1)).nextId = (seqSplit k).nextId + 1 := by
  have hsb : splitBundle [] (seqSplit k) seqInput
      = splitPhase2 (seqPlan k) (seqSplit k) seqInput := by
    unfold splitBundle
    rw [seqPhase1_ok k hk hfk]
  have h2 := splitPhase2_reliable (seqPlan k) (seqSplit k) seqInput rfl
  rw [h2] at hsb
  have h1 : seqSplit (k + 1) = (splitBundle [] (seqSplit k) seqInput).1 := rfl
  refine ⟨?_, ?_, ?_⟩
  · rw [h1, hsb]
  · rw [h1, hsb]
  · rw [h1, hsb]

lemma seqFilter_succ (k : Nat) (hk : k ≤ 998)
    (hfk : (seqSplit k).bundles.filter (fun r => r.id = seqInput.bundleId)
      = [seqRow k])
    (hnext : (seqSplit k).nextId = 11 + k) :
    (seqSplit (k + 1)).bundles.filter (fun r => r.id = seqInput.bundleId)
      = [seqRow (k + 1)] := by
  obtain ⟨-, hb, -⟩ := seqSplit_shape k hk hfk
  have hid : (splitNewRow (seqPlan k) (seqSplit k) seqInput).id ≠ seqInput.bundleId := by
    show (seqSplit k).nextId ≠ seqInput.bundleId
    rw [hnext]
    show 11 + k ≠ 10
    omega
  have hnew : List.filter (fun r => r.id = seqInput.bundleId)
      [splitNewRow (seqPlan k) (seqSplit k) seqInput] = [] := by
    simp [hid]
  rw [hb, List.filter_append, filter_id_map_splitUpd, hfk, hnew, List.append_nil]
  show [splitUpd (seqPlan k) seqInput (seqRow k)] = [seqRow (k + 1)]
  by_cases hk0 : k = 0
  · rw [hk0]
    decide
  · have hupd : splitUpd (seqPlan k) seqInput (seqRow k) =
        ⟨10, 1, some 7001, some ((1000 : Int) - ((k : Int) + 1)), some .disponible,
         none, "A", "B"⟩ := by
      have hnum : (seqRow k).numero_bulto = some 7001 := by
        show some (if k = 0 then (7 : Int) else 7001) = some 7001
        rw [if_neg hk0]
      have hsn : (seqPlan k).shouldNormalize = false := by
        show shouldNormalizeOf (seqRow k).numero_bulto = false
        rw [hnum]
        decide
      have hrem : (seqPlan k).remainingSheets = (1000 : Int) - ((k : Int) + 1) := by
        show (seqRow k).cantidad_laminas.getD 0 - seqInput.sheets = _
        show ((1000 : Int) - (k : Int)) - 1 = (1000 : Int) - ((k : Int) + 1)
        omega
      unfold splitUpd
      rw [hsn, hrem, hnum]
      rfl
    rw [hupd]
    show _ = [(⟨10, 1, some (if k + 1 = 0 then (7 : Int) else 7001),
      some ((1000 : Int) - ((k + 1 : Nat) : Int)), some .disponible, none, "A", "B"⟩ :
        BundleRow)]
    rw [if_neg (Nat.succ_ne_zero k)]
    have hcast : (1000 : Int) - ((k : Int) + 1) = (1000 : Int) - ((k + 1 : Nat) : Int) := by
      omega
    rw [hcast]

lemma seqSplit_spec : ∀ k, k ≤ 998 →
    SplitReach 7 1000 k (seqSplit k) ∧
    (seqSplit k).bundles.filter (fun r => r.id = seqInput.bundleId) = [seqRow k] ∧
    (seqSplit k).nextId = 11 + k ∧
    splitBundle [] (seqSplit k) seqInput = (seqSplit (k + 1), none) := by
  intro k
  induction k with
  | zero =>
    intro _
    exact ⟨SplitReach.start, by decide, by decide,
      (seqSplit_shape 0 (by omega) (by decide)).1⟩
  | succ n ih =>
    intro hk
    obtain ⟨hreach, hfil, hnext, hsucc⟩ := ih (by omega)
    have hn998 : n ≤ 998 := by omega
    have hfil2 := seqFilter_succ n hn998 hfil hnext
    obtain ⟨-, -, hnext2⟩ := seqSplit_shape n hn998 hfil
    refine ⟨@SplitReach.step 7 1000 n (seqSplit n) (seqSplit (n + 1)) seqInput
      hreach rfl hsucc, hfil2, ?_, (seqSplit_shape (n + 1) hk hfil2).1⟩
    rw [hnext2, hnext]
    omega

lemma seqReach : ∀ k, k ≤ 999 → SplitReach 7 1000 k (seqSplit k) := by
  intro k hk
  cases k with
  | zero => exact SplitReach.start
  | succ n =>
    obtain ⟨hreach, -, -, hsucc⟩ := seqSplit_spec n (by omega)
    exact @SplitReach.step 7 1000 n (seqSplit n) (seqSplit (n + 1)) seqInput
      hreach rfl hsucc

/-- Counterexample to C3 as frozen: splitting the same group 999 times in
sequence succeeds at every step, yet the decoded variants are NOT
{1, ..., 1000} — the 999th split allocates nextVariant 1000, whose encoding
7·1000 + 1000 = 8000 decodes as (base 8, variant 1) (`8000 % 1000` is 0 and
`0 || 1` yields 1), so the realized decoded list contains (8, 1) while the
claimed one holds only pairs with base 7. -/
theorem split_variant_overflow_at_1000 :
    SplitReach 7 1000 999 (seqSplit 999) ∧
    (seqSplit 999).bundles.map (fun r => decodeBundleNumber r.numero_bulto)
      ≠ (List.range 1000).map
          (fun (i : Nat) => (⟨some 7, some ((i : Int) + 1)⟩ : BundleNumberInfo)) := by
  refine ⟨seqReach 999 (by omega), ?_⟩
  intro hcontra
  obtain ⟨-, hfil, -, -⟩ := seqSplit_spec 998 (by omega)
  obtain ⟨-, hb, -⟩ := seqSplit_shape 998 (by omega) hfil
  have hreach998 := seqReach 998 (by omega)
  obtain ⟨hords, hnums⟩ :=
    splitReach_inv 7 1000 (by norm_num) (by norm_num) 998 _ hreach998 (by omega)
  rw [if_neg (by omega)] at hnums
  have hhv : highestVariantOf (seqSplit 998) 1 7 = (999 : Int) :=
    highestVariantOf_range (seqSplit 998) 7 (by norm_num) 999 (by norm_num)
      (by norm_num) hords hnums
  have hnew : decodeBundleNumber
      ((splitNewRow (seqPlan 998) (seqSplit 998) seqInput).numero_bulto)
      = ⟨some 8, some 1⟩ := by
    show decodeBundleNumber
        (some (encodeBundleNumber (seqPlan 998).baseNumber (seqPlan 998).nextVariant))
      = ⟨some 8, some 1⟩
    have hnv : (seqPlan 998).nextVariant = 1000 := by
      show highestVariantOf (seqSplit 998) 1 7 + 1 = 1000
      rw [hhv]
      decide
    rw [hnv]
    decide
  have hmem : (⟨some 8, some 1⟩ : BundleNumberInfo)
      ∈ (seqSplit 999).bundles.map (fun r => decodeBundleNumber r.numero_bulto) := by
    rw [hb, List.map_append]
    refine List.mem_append_right _ ?_
    simp only [List.map_cons, List.map_nil, List.mem_singleton]
    exact hnew.symm
  rw [hcontra] at hmem
  obtain ⟨i, hi, heq⟩ := List.mem_map.mp hmem
  have hb8 : (some (7 : Int)) = some 8 := congrArg BundleNumberInfo.base heq
  exact absurd hb8 (by decide)

end CortesAdmin
